import Mathlib

/-!
Verification of the batched JSON-RPC fetch client in
`scripts/fetch_from_manifest.py`: the batch invoker (`batch_call`), the
block-hash cache (`get_block_hash` / `get_block_hashes_batch`), the
opaque-metadata decoder, the retrying batch fetcher and the final output
ordering.  Network interaction is modelled by explicit response oracles,
and every function additionally returns the log of payloads it handed to
the transport, so that "no network call" is the statement that the log is
empty.
-/

namespace FetchManifest

/-! ### Configuration constants (module header of the script) -/

def MAX_RETRIES : Nat := 3

def RETRY_DELAY : ℚ := 1

def events_key : String :=
  "0x26aa394eea5630e07c48ae0c9558cef780d41e5e16056765bc8461851072c9d7"

/-! ### Batch invoker (`RPCClient.batch_call`)

A response-array item is either not a JSON object (skipped by the
`isinstance(item, dict)` test) or an object with an optional integer `id`
field and an optional `result` field (`item.get("result")`).  The raw
response of `_raw_call` is either absent, a single JSON object
(`isinstance(result, dict)`), or an array of items.  `V` is the type of
decoded `result` payloads of the particular batch. -/

inductive RespItem (V : Type) where
  | nonDict
  | obj (id : Option Int) (result : Option V)
deriving DecidableEq

inductive RawResponse (V : Type) where
  | dict
  | arr (items : List (RespItem V))
deriving DecidableEq

/-- The correlation loop of `batch_call`: starting from
`results = [None] * len(calls)`, each dict item carrying an id in range
`0 <= id < len(calls)` overwrites the slot named by its id with the item's
`result` field; every other item is skipped. -/
def fillResults {V : Type} (n : Nat) : List (Option V) → List (RespItem V) → List (Option V)
  | acc, [] => acc
  | acc, .nonDict :: rest => fillResults n acc rest
  | acc, .obj none _ :: rest => fillResults n acc rest
  | acc, .obj (some idx) r :: rest =>
      if 0 ≤ idx ∧ idx < (n : Int) then fillResults n (acc.set idx.toNat r) rest
      else fillResults n acc rest

/-- Result assembly of `batch_call` as a function of the number of
submitted calls and the raw response: absent raw result or a single
object yields all-`none`, an array is folded by `fillResults`. -/
def batchCallResults {V : Type} (numCalls : Nat) (raw : Option (RawResponse V)) :
    List (Option V) :=
  match raw with
  | none => List.replicate numCalls none
  | some .dict => List.replicate numCalls none
  | some (.arr items) => fillResults numCalls (List.replicate numCalls none) items

/-- `batch_call`.  `net` maps the submitted batch payload (the list of
calls, each implicitly carrying its position as id) to the raw response;
the second component is the log of payloads handed to `_raw_call`, so an
empty log means no network call was issued. -/
def batch_call {C V : Type} (net : List C → Option (RawResponse V)) (calls : List C) :
    List (Option V) × List (List C) :=
  if calls.isEmpty then ([], [])
  else (batchCallResults calls.length (net calls), [calls])

/-- Does the item name slot `j` of a batch of `n` calls, i.e. is it a dict
with integer id satisfying `0 <= id < n` and denoting `j`? -/
def hitsId {V : Type} (n j : Nat) : RespItem V → Bool
  | .obj (some idx) _ => decide (0 ≤ idx ∧ idx < (n : Int) ∧ idx.toNat = j)
  | _ => false

/-- The `result` field of an item (`none` for non-dict items). -/
def itemResult {V : Type} : RespItem V → Option V
  | .obj _ r => r
  | .nonDict => none

/-- The `result` field of the last item of the list that names slot `j`,
or `none` when no item does.  (The correlation loop overwrites slots in
item order, so the last matching item wins.) -/
def lastHit {V : Type} (n j : Nat) : List (RespItem V) → Option (Option V)
  | [] => none
  | it :: rest =>
    match lastHit n j rest with
    | some r => some r
    | none => if hitsId n j it then some (itemResult it) else none

/-- Is the item a dict whose id is an integer in range `0..n-1`?  Items
failing this test are skipped by the correlation loop. -/
def relevantItem {V : Type} (n : Nat) : RespItem V → Bool
  | .obj (some idx) _ => decide (0 ≤ idx ∧ idx < (n : Int))
  | _ => false

/-! ### Block-hash cache (`get_block_hash` / `get_block_hashes_batch`)

The cache is the shared mapping `block_hash_cache : Dict[int, str]`,
modelled as a function `Nat → Option String`; `none` means the key is
absent.  Network lookups are oracles: `Nat → Option String` for the
single `chain_getBlockHash` call, and a payload-indexed raw-response
oracle for the batch form.  Each operation returns the list of block
numbers (resp. batch payloads) it put on the wire. -/

abbrev Cache := Nat → Option String

/-- Python truthiness of an optional string result (`if result:`):
present and non-empty. -/
def truthyStr : Option String → Bool
  | none => false
  | some s => !s.isEmpty

/-- `self.block_hash_cache[bn] = h` -/
def cacheInsert (c : Cache) (bn : Nat) (h : String) : Cache :=
  fun n => if n = bn then some h else c n

/-- `get_block_hash`: consult the cache, otherwise issue one
`chain_getBlockHash` call and store the result only when truthy. -/
def get_block_hash (oracle : Nat → Option String) (cache : Cache) (block_number : Nat) :
    Option String × Cache × List Nat :=
  match cache block_number with
  | some h => (some h, cache, [])
  | none =>
    match oracle block_number with
    | some s =>
      if s.isEmpty then (some s, cache, [block_number])
      else (some s, cacheInsert cache block_number s, [block_number])
    | none => (none, cache, [block_number])

/-- A `("chain_getBlockHash", [bn])` call descriptor. -/
def hashCall (bn : Nat) : String × List Nat := ("chain_getBlockHash", [bn])

/-- The merge loop of `get_block_hashes_batch`:
`for bn, result in zip(uncached, results): if result: cache[bn] = result`. -/
def mergeResults (cache : Cache) : List (Nat × Option String) → Cache
  | [] => cache
  | (bn, some s) :: rest =>
    if s.isEmpty then mergeResults cache rest
    else mergeResults (cacheInsert cache bn s) rest
  | (_, none) :: rest => mergeResults cache rest

/-- The value the merge loop leaves at key `n`: the truthy (non-empty)
result of the last `(bn, result)` pair with `bn = n`, or `none` when no
pair stores to `n`.  (Later pairs overwrite earlier ones, so the last
truthy store wins.) -/
def lastTruthyFor (n : Nat) : List (Nat × Option String) → Option String
  | [] => none
  | (bn, r) :: rest =>
    match lastTruthyFor n rest with
    | some s => some s
    | none =>
      match r with
      | some s => if bn = n ∧ s.isEmpty = false then some s else none
      | none => none

/-- Key sequence of a Python dict comprehension over a list: first
occurrence of each key, in order (`{bn: ... for bn in block_numbers}`). -/
def dedupFirst : List Nat → List Nat
  | [] => []
  | x :: xs => x :: (dedupFirst xs).filter (fun y => y ≠ x)

/-- The cache-updating part of `get_block_hashes_batch`: compute the
uncached subset, batch-call `chain_getBlockHash` over exactly that subset
(if nonempty), and merge the truthy results into the cache.  Returns the
new cache and the log of batch payloads issued. -/
def batchCacheUpdate (net : List (String × List Nat) → Option (RawResponse String))
    (cache : Cache) (block_numbers : List Nat) :
    Cache × List (List (String × List Nat)) :=
  let uncached := block_numbers.filter (fun bn => (cache bn).isNone)
  if uncached.isEmpty then (cache, [])
  else
    let calls := uncached.map hashCall
    let res := batch_call net calls
    (mergeResults cache (uncached.zip res.1), res.2)

/-- `get_block_hashes_batch`: update the cache from the uncached subset,
then return `{bn: self.block_hash_cache.get(bn) for bn in block_numbers}`
(a dict, so keys deduplicated in first-occurrence order) together with
the new cache and the batch-payload log. -/
def get_block_hashes_batch (net : List (String × List Nat) → Option (RawResponse String))
    (cache : Cache) (block_numbers : List Nat) :
    List (Nat × Option String) × Cache × List (List (String × List Nat)) :=
  let u := batchCacheUpdate net cache block_numbers
  ((dedupFirst block_numbers).map (fun bn => (bn, u.1 bn)), u.1, u.2)

/-! ### Opaque-metadata decoding
(`get_metadata_at_version` / `_decode_opaque_metadata`)

String slicing on Python `str` is character-based, matching Lean's
`String.take` / `String.drop` / `String.length`; `result.startswith(p)`
is `pyStartsWith`. -/

/-- Python `s.startswith(p)`: the first `len(p)` characters equal `p`. -/
def pyStartsWith (s p : String) : Bool := s.take p.length = p

/-- Value of a hex digit, or `none` when the character is not one. -/
def hexDigit (c : Char) : Option Nat :=
  if '0' ≤ c ∧ c ≤ '9' then some (c.toNat - '0'.toNat)
  else if 'a' ≤ c ∧ c ≤ 'f' then some (c.toNat - 'a'.toNat + 10)
  else if 'A' ≤ c ∧ c ≤ 'F' then some (c.toNat - 'A'.toNat + 10)
  else none

/-- `int(hex_data[0:2], 16)` applied to the one- or two-character slice:
`none` models the `ValueError` caught by the surrounding `except`. -/
def parseHexPrefix (s : String) : Option Nat :=
  match s.toList with
  | [c] => hexDigit c
  | [c1, c2] =>
    match hexDigit c1, hexDigit c2 with
    | some h1, some h2 => some (16 * h1 + h2)
    | _, _ => none
  | _ => none

/-- The hex offset at which the metadata payload starts, from the SCALE
compact-length tag byte: `first_byte & 0b11` selects the mode and
`first_byte >> 2` is the upper six bits. -/
def dataStart (first_byte : Nat) : Nat :=
  if first_byte % 4 = 0 then 2
  else if first_byte % 4 = 1 then 4
  else if first_byte % 4 = 2 then 8
  else 2 + (first_byte / 4 + 4) * 2

/-- `_decode_opaque_metadata`: strip the compact length prefix and return
`"0x" + hex_data[data_start:]`; empty input or an unparsable tag byte
yields `none`. -/
def decode_opaque_metadata (hex_data : String) : Option String :=
  if hex_data.isEmpty then none
  else
    match parseHexPrefix (hex_data.take 2) with
    | none => none
    | some first_byte => some ("0x" ++ hex_data.drop (dataStart first_byte))

/-- `get_metadata_at_version`, as a function of the `state_call` result:
falsy, `"0x00"` or shorter-than-4 results yield `none`; a result with the
success discriminant `0x01` is stripped of its first four hex characters
and decoded; anything else yields `none`. -/
def get_metadata_at_version (result : Option String) : Option String :=
  match result with
  | none => none
  | some r =>
    if r.isEmpty = true ∨ r = "0x00" ∨ r.length < 4 then none
    else if pyStartsWith r "0x01" then decode_opaque_metadata (r.drop 4)
    else none

/-! ### Block and event fetch (`_fetch_block_and_events_batch_impl`)

`BlockData` is the well-formed `chain_getBlock` result
(`block_data["block"]` with its `extrinsics` and `header`); header
members are optional because the code reads them with `.get`. -/

structure Header where
  digest : Option String
  extrinsicsRoot : Option String
  number : Option String
  parentHash : Option String
  stateRoot : Option String
deriving DecidableEq

structure BlockData where
  extrinsics : List String
  header : Header
deriving DecidableEq

/-- The dict appended to `blocks`: block number, extrinsics and the
chosen header subset (digest defaulting to the empty object `{}`). -/
structure BlockRecord where
  blockNumber : Nat
  extrinsics : List String
  digest : String
  extrinsicsRoot : Option String
  number : Option String
  parentHash : Option String
  stateRoot : Option String
deriving DecidableEq

/-- The dict appended to `events`: block number and raw storage payload. -/
structure EventRecord where
  blockNumber : Nat
  events : String
deriving DecidableEq

/-- The Block Record built for block number `bn` from a block result. -/
def mkBlockRecord (bn : Nat) (bd : BlockData) : BlockRecord :=
  { blockNumber := bn
    extrinsics := bd.extrinsics
    digest := bd.header.digest.getD "\x7b\x7d"
    extrinsicsRoot := bd.header.extrinsicsRoot
    number := bd.header.number
    parentHash := bd.header.parentHash
    stateRoot := bd.header.stateRoot }

/-- `("chain_getBlock", [h])` -/
def blockCall (h : String) : String × List String := ("chain_getBlock", [h])

/-- `("state_getStorage", [events_key, h])` -/
def storageCall (h : String) : String × List String := ("state_getStorage", [events_key, h])

/-- The comprehension filter of `valid_blocks`: keep a pair iff its hash
is truthy. -/
def keepTruthyHash (p : Nat × Option String) : Option (Nat × String) :=
  match p.2 with
  | some h => if h.isEmpty then none else some (p.1, h)
  | none => none

/-- `valid_blocks = [(bn, h) for bn, h in hash_map.items() if h]`:
keep the pairs whose hash is truthy. -/
def validBlocks (mapping : List (Nat × Option String)) : List (Nat × String) :=
  mapping.filterMap keepTruthyHash

/-- The emission loop over `zip(valid_blocks, block_results,
event_results)`: a Block Record when the block result is present, an
Event Record when the storage result is truthy (non-empty). -/
def buildRecords : List (Nat × String) → List (Option BlockData) → List (Option String) →
    List BlockRecord × List EventRecord
  | (bn, _) :: vs, bd? :: bds, ev? :: evs =>
    let rest := buildRecords vs bds evs
    ((match bd? with
      | some bd => mkBlockRecord bn bd :: rest.1
      | none => rest.1),
     (match ev? with
      | some ev =>
        if ev.isEmpty then rest.2 else { blockNumber := bn, events := ev } :: rest.2
      | none => rest.2))
  | _, _, _ => ([], [])

/-- `_fetch_block_and_events_batch_impl`: resolve hashes in bulk, keep
the pairs whose hash is truthy, batch-fetch blocks then events over
exactly those hashes, and emit records.  Returns the records, the
updated cache, and the three batch-payload logs (hash, block, event
batches). -/
def fetch_impl (hnet : List (String × List Nat) → Option (RawResponse String))
    (bnet : List (String × List String) → Option (RawResponse BlockData))
    (enet : List (String × List String) → Option (RawResponse String))
    (cache : Cache) (block_numbers : List Nat) :
    (List BlockRecord × List EventRecord) × Cache ×
      (List (List (String × List Nat)) × List (List (String × List String)) ×
        List (List (String × List String))) :=
  let hres := get_block_hashes_batch hnet cache block_numbers
  let valid := validBlocks hres.1
  if valid.isEmpty then (([], []), hres.2.1, (hres.2.2, [], []))
  else
    let bres := batch_call bnet (valid.map (fun p => blockCall p.2))
    let eres := batch_call enet (valid.map (fun p => storageCall p.2))
    (buildRecords valid bres.1 eres.1, hres.2.1, (hres.2.2, bres.2, eres.2))

/-! ### Retrying fetcher (`fetch_block_and_events_batch`) -/

/-- The retry loop `for attempt in range(MAX_RETRIES)`, generic in the
per-attempt step (which may carry state `σ` across attempts and may
raise, modelled by `Except`).  Returns the result and final state, the
list of sleep durations (`RETRY_DELAY * (attempt + 1)` before each
re-attempt), and the list of attempt indices at which the step ran:
return the attempt's result when the block count matches the requested
count or the attempt is the last, otherwise sleep and retry; an
exception retries identically, except on the last attempt where it
yields empty results. -/
def fetchRetryGo {σ β ε : Type} (step : Nat → σ → Except Unit ((List β × List ε) × σ))
    (count : Nat) (attempt : Nat) (s : σ) :
    ((List β × List ε) × σ) × List ℚ × List Nat :=
  if h : attempt < MAX_RETRIES then
    match step attempt s with
    | .ok ((b, e), s2) =>
      if b.length = count then (((b, e), s2), [], [attempt])
      else if attempt = MAX_RETRIES - 1 then (((b, e), s2), [], [attempt])
      else
        let rest := fetchRetryGo step count (attempt + 1) s2
        (rest.1, RETRY_DELAY * ((attempt : ℚ) + 1) :: rest.2.1, attempt :: rest.2.2)
    | .error _ =>
      if attempt = MAX_RETRIES - 1 then ((([], []), s), [], [attempt])
      else
        let rest := fetchRetryGo step count (attempt + 1) s
        (rest.1, RETRY_DELAY * ((attempt : ℚ) + 1) :: rest.2.1, attempt :: rest.2.2)
  else ((([], []), s), [], [])
termination_by MAX_RETRIES - attempt
decreasing_by all_goals omega

/-- `fetch_block_and_events_batch` with the attempt outcomes abstracted
into an oracle `impl` of the attempt index (no cross-attempt state);
`count` is `len(block_numbers)`. -/
def fetchRetryAbs {β ε : Type} (impl : Nat → Except Unit (List β × List ε)) (count : Nat) :
    (List β × List ε) × List ℚ × List Nat :=
  let r := fetchRetryGo (σ := Unit) (fun a _ => (impl a).map (fun be => (be, ()))) count 0 ()
  (r.1.1, r.2)

/-- `fetch_block_and_events_batch` composed with the real
`_fetch_block_and_events_batch_impl` step, threading the cache across
attempts (the pure model never raises). -/
def fetch_block_and_events_batch
    (hnet : List (String × List Nat) → Option (RawResponse String))
    (bnet : List (String × List String) → Option (RawResponse BlockData))
    (enet : List (String × List String) → Option (RawResponse String))
    (cache : Cache) (block_numbers : List Nat) :
    ((List BlockRecord × List EventRecord) × Cache) × List ℚ × List Nat :=
  fetchRetryGo
    (fun _ c => .ok ((fetch_impl hnet bnet enet c block_numbers).1,
      (fetch_impl hnet bnet enet c block_numbers).2.1))
    block_numbers.length 0 cache

/-! ### Output ordering (`main`, writing `blocks.jsonl` / `events.jsonl`) -/

/-- `sorted(blocks, key=lambda x: x["blockNumber"])` (Python's stable
sort). -/
def sortBlockRecords (l : List BlockRecord) : List BlockRecord :=
  l.mergeSort (fun a b => a.blockNumber ≤ b.blockNumber)

/-- `sorted(events, key=lambda x: x["blockNumber"])` -/
def sortEventRecords (l : List EventRecord) : List EventRecord :=
  l.mergeSort (fun a b => a.blockNumber ≤ b.blockNumber)

/-! ### Fully successful network scenarios, for partition invariance -/

/-- A fully successful raw response for a batch: one well-formed item
per call, carrying its position id and the result `f call`. -/
def perfectNet {C V : Type} (f : C → V) (calls : List C) : Option (RawResponse V) :=
  some (.arr (calls.enum.map (fun p => .obj (some (p.1 : Int)) (some (f p.2)))))

/-- A `chain_getBlockHash` batch oracle that answers `hf bn` for every
requested number. -/
def perfectHashNet (hf : Nat → String) :
    List (String × List Nat) → Option (RawResponse String) :=
  perfectNet (fun p => hf (p.2.headD 0))

/-- A `chain_getBlock` batch oracle that answers `bf h` for every hash. -/
def perfectBlockNet (bf : String → BlockData) :
    List (String × List String) → Option (RawResponse BlockData) :=
  perfectNet (fun p => bf (p.2.headD ""))

/-- A `state_getStorage` batch oracle that answers `ef h` for the events
key at every hash. -/
def perfectEventNet (ef : String → String) :
    List (String × List String) → Option (RawResponse String) :=
  perfectNet (fun p => ef (p.2.getD 1 ""))

/-! ### Lemmas about the correlation loop -/

theorem length_fillResults {V : Type} (n : Nat) (items : List (RespItem V))
    (acc : List (Option V)) : (fillResults n acc items).length = acc.length := by
  induction items generalizing acc with
  | nil => rfl
  | cons it rest ih =>
    cases it with
    | nonDict => exact ih acc
    | obj oid r =>
      cases oid with
      | none => exact ih acc
      | some idx =>
        by_cases h : 0 ≤ idx ∧ idx < (n : Int)
        · simp only [fillResults, if_pos h]
          rw [ih, List.length_set]
        · simp only [fillResults, if_neg h]
          exact ih acc

theorem lastHit_cons {V : Type} (n j : Nat) (it : RespItem V) (rest : List (RespItem V)) :
    lastHit n j (it :: rest) =
      match lastHit n j rest with
      | some r => some r
      | none => if hitsId n j it then some (itemResult it) else none := rfl

theorem getD_fillResults {V : Type} (n : Nat) (items : List (RespItem V)) (j : Nat)
    (hj : j < n) :
    ∀ (acc : List (Option V)), acc.length = n →
      (fillResults n acc items).getD j none = (lastHit n j items).getD (acc.getD j none) := by
  induction items with
  | nil => intro acc _; rfl
  | cons it rest ih =>
    intro acc hacc
    cases it with
    | nonDict =>
      show (fillResults n acc rest).getD j none = _
      rw [ih acc hacc, lastHit_cons]
      cases lastHit n j rest with
      | some r' => rfl
      | none => simp [hitsId]
    | obj oid r =>
      cases oid with
      | none =>
        show (fillResults n acc rest).getD j none = _
        rw [ih acc hacc, lastHit_cons]
        cases lastHit n j rest with
        | some r' => rfl
        | none => simp [hitsId]
      | some idx =>
        by_cases hcond : 0 ≤ idx ∧ idx < (n : Int)
        · simp only [fillResults, if_pos hcond]
          have hlen : (acc.set idx.toNat r).length = n := by rw [List.length_set]; exact hacc
          rw [ih _ hlen, lastHit_cons]
          cases hrest : lastHit n j rest with
          | some r' => rfl
          | none =>
            simp only [Option.getD_none]
            by_cases hidx : idx.toNat = j
            · have hhit : hitsId n j (RespItem.obj (some idx) r) = true := by
                simp [hitsId, hcond.1, hcond.2, hidx]
              rw [hhit]
              simp only [if_true, itemResult, Option.getD_some]
              rw [List.getD_eq_getElem?_getD, ← hidx,
                List.getElem?_set_self (by rw [hacc, hidx]; exact hj)]
              rfl
            · have hhit : hitsId n j (RespItem.obj (some idx) r) = false := by
                simp only [hitsId, decide_eq_false_iff_not]
                intro hc
                exact hidx hc.2.2
              rw [hhit]
              simp only [Bool.false_eq_true, if_false, Option.getD_none]
              rw [List.getD_eq_getElem?_getD, List.getD_eq_getElem?_getD,
                List.getElem?_set_ne hidx]
        · simp only [fillResults, if_neg hcond]
          rw [ih acc hacc, lastHit_cons]
          have hhit : hitsId n j (RespItem.obj (some idx) r) = false := by
            simp only [hitsId, decide_eq_false_iff_not]
            intro hc
            exact hcond ⟨hc.1, hc.2.1⟩
          cases lastHit n j rest with
          | some r' => rfl
          | none => rw [hhit]; rfl

theorem lastHit_eq_none {V : Type} (n j : Nat) (items : List (RespItem V))
    (h : ∀ it ∈ items, hitsId n j it = false) : lastHit n j items = none := by
  induction items with
  | nil => rfl
  | cons it rest ih =>
    rw [lastHit_cons, ih (fun x hx => h x (List.mem_cons_of_mem it hx)),
      h it (List.mem_cons_self it rest)]
    rfl

theorem lastHit_spec {V : Type} (n j : Nat) (items : List (RespItem V)) (r : Option V)
    (h : lastHit n j items = some r) :
    ∃ it ∈ items, hitsId n j it = true ∧ itemResult it = r := by
  induction items with
  | nil => exact absurd h (by simp [lastHit])
  | cons it rest ih =>
    rw [lastHit_cons] at h
    cases hrest : lastHit n j rest with
    | some r' =>
      rw [hrest] at h
      simp only at h
      obtain ⟨x, hx, hhit, hres⟩ := ih (hrest.trans h)
      exact ⟨x, List.mem_cons_of_mem it hx, hhit, hres⟩
    | none =>
      rw [hrest] at h
      simp only at h
      by_cases hh : hitsId n j it
      · rw [if_pos hh] at h
        exact ⟨it, List.mem_cons_self it rest, hh, by injection h⟩
      · rw [if_neg hh] at h
        exact absurd h (by simp)

theorem getD_replicate_none {V : Type} (n j : Nat) :
    (List.replicate n (none : Option V)).getD j none = none := by
  rw [List.getD_eq_getElem?_getD]
  rcases Nat.lt_or_ge j n with h | h
  · rw [List.getElem?_replicate, if_pos h]; rfl
  · rw [List.getElem?_eq_none (by simpa using h)]; rfl

theorem fillResults_filter {V : Type} (n : Nat) (items : List (RespItem V)) :
    ∀ acc, fillResults n acc (items.filter (relevantItem n)) = fillResults n acc items := by
  induction items with
  | nil => intro acc; rfl
  | cons it rest ih =>
    intro acc
    cases it with
    | nonDict =>
      rw [List.filter_cons_of_neg (by simp [relevantItem])]
      exact ih acc
    | obj oid r =>
      cases oid with
      | none =>
        rw [List.filter_cons_of_neg (by simp [relevantItem])]
        exact ih acc
      | some idx =>
        by_cases hcond : 0 ≤ idx ∧ idx < (n : Int)
        · rw [List.filter_cons_of_pos (by simp [relevantItem, hcond])]
          simp only [fillResults, if_pos hcond]
          exact ih _
        · rw [List.filter_cons_of_neg (by simp [relevantItem, hcond])]
          simp only [fillResults, if_neg hcond]
          exact ih acc

/-- C1: `batch_call` returns a list of exactly the length of its input; a
slot holds `none` when no array item names it and the `result` field of an
item naming it otherwise; items with out-of-range or missing ids (or that
are not objects) are ignored; an absent raw response or a single-object
raw response makes every slot `none`; and reordered responses `[C, B, A]`
carrying ids still land in request order `[resultA, resultB, resultC]`. -/
theorem batch_call_correlation :
    (∀ (C V : Type) (net : List C → Option (RawResponse V)) (calls : List C),
      (batch_call net calls).1.length = calls.length)
    ∧ (∀ (V : Type) (n j : Nat) (items : List (RespItem V)), j < n →
        (∀ it ∈ items, hitsId n j it = false) →
        (batchCallResults n (some (.arr items))).getD j none = none)
    ∧ (∀ (V : Type) (n j : Nat) (items : List (RespItem V)), j < n →
        (∃ it ∈ items, hitsId n j it = true) →
        ∃ it ∈ items, hitsId n j it = true ∧
          (batchCallResults n (some (.arr items))).getD j none = itemResult it)
    ∧ (∀ (V : Type) (n : Nat) (items : List (RespItem V)),
        batchCallResults n (some (.arr (items.filter (relevantItem n)))) =
          batchCallResults n (some (.arr items)))
    ∧ (∀ (C V : Type) (net : List C → Option (RawResponse V)) (calls : List C),
        net calls = none → (batch_call net calls).1 = List.replicate calls.length none)
    ∧ (∀ (C V : Type) (net : List C → Option (RawResponse V)) (calls : List C),
        net calls = some .dict → (batch_call net calls).1 = List.replicate calls.length none)
    ∧ (batch_call (C := String) (V := String)
        (fun _ => some (.arr [.obj (some 2) (some "resultC"), .obj (some 1) (some "resultB"),
          .obj (some 0) (some "resultA")])) ["A", "B", "C"]).1 =
        [some "resultA", some "resultB", some "resultC"] := by
  refine ⟨?_, ?_, ?_, ?_, ?_, ?_, ?_⟩
  · intro C V net calls
    unfold batch_call
    by_cases h : calls.isEmpty
    · rw [if_pos h]
      simp [List.isEmpty_iff.mp h]
    · rw [if_neg h]
      show (batchCallResults calls.length (net calls)).length = _
      cases hnet : net calls with
      | none => simp [batchCallResults]
      | some raw =>
        cases raw with
        | dict => simp [batchCallResults]
        | arr items =>
          show (fillResults _ _ _).length = _
          rw [length_fillResults, List.length_replicate]
  · intro V n j items hj hnone
    show (fillResults n (List.replicate n none) items).getD j none = none
    rw [getD_fillResults n items j hj _ (List.length_replicate n none),
      lastHit_eq_none n j items hnone]
    exact getD_replicate_none n j
  · intro V n j items hj hex
    cases hlh : lastHit n j items with
    | none =>
      obtain ⟨it, hit, hhit⟩ := hex
      cases hlh2 : hitsId n j it
      · rw [hhit] at hlh2; exact absurd hlh2 (by simp)
      · exfalso
        -- lastHit cannot be none when some item hits
        have : lastHit n j items ≠ none := by
          clear hlh
          induction items with
          | nil => exact absurd hit (by simp)
          | cons a rest ih =>
            unfold lastHit
            cases hrest : lastHit n j rest with
            | some r => simp
            | none =>
              rcases List.mem_cons.mp hit with h | h
              · subst h; rw [if_pos hhit]; simp
              · exact absurd hrest (ih h)
        exact this hlh
    | some r =>
      obtain ⟨it, hit, hhit, hres⟩ := lastHit_spec n j items r hlh
      refine ⟨it, hit, hhit, ?_⟩
      show (fillResults n (List.replicate n none) items).getD j none = _
      rw [getD_fillResults n items j hj _ (List.length_replicate n none), hlh, hres]
      rfl
  · intro V n items
    show fillResults n _ _ = fillResults n _ _
    exact fillResults_filter n items _
  · intro C V net calls hnet
    unfold batch_call
    by_cases h : calls.isEmpty
    · rw [if_pos h]; simp [List.isEmpty_iff.mp h]
    · rw [if_neg h]
      show batchCallResults calls.length (net calls) = _
      rw [hnet]; rfl
  · intro C V net calls hnet
    unfold batch_call
    by_cases h : calls.isEmpty
    · rw [if_pos h]; simp [List.isEmpty_iff.mp h]
    · rw [if_neg h]
      show batchCallResults calls.length (net calls) = _
      rw [hnet]; rfl
  · rfl

/-- Witness for C1 at concrete inputs: slot 0 of a 2-call batch whose only
response item carries the out-of-range id 5 resolves to `none`, and a
batch whose item carries id 0 resolves slot 0 to that item's result. -/
theorem batch_call_correlation_witness :
    (batchCallResults (V := String) 2
      (some (.arr [.obj (some 5) (some "x")])) ).getD 0 none = none ∧
    ∃ it ∈ [RespItem.obj (V := String) (some 0) (some "y")], hitsId 2 0 it = true ∧
      (batchCallResults (V := String) 2
        (some (.arr [.obj (some 0) (some "y")]))).getD 0 none = itemResult it := by
  constructor
  · exact batch_call_correlation.2.1 String 2 0 _ (by decide) (by decide)
  · exact batch_call_correlation.2.2.1 String 2 0 _ (by decide)
      ⟨RespItem.obj (some 0) (some "y"), by decide, by decide⟩

/-- C9: `batch_call` applied to an empty list of calls returns the empty
result sequence and logs no transport payload (`_raw_call` is never
invoked). -/
theorem batch_call_empty {C V : Type} (net : List C → Option (RawResponse V)) :
    batch_call net [] = ([], []) := rfl

/-! ### Lemmas about the hash cache -/

theorem mergeResults_cons_some (cache : Cache) (bn : Nat) (s : String)
    (rest : List (Nat × Option String)) :
    mergeResults cache ((bn, some s) :: rest) =
      if s.isEmpty then mergeResults cache rest
      else mergeResults (cacheInsert cache bn s) rest := rfl

theorem lastTruthyFor_cons (n bn : Nat) (r : Option String)
    (rest : List (Nat × Option String)) :
    lastTruthyFor n ((bn, r) :: rest) =
      match lastTruthyFor n rest with
      | some s => some s
      | none =>
        match r with
        | some s => if bn = n ∧ s.isEmpty = false then some s else none
        | none => none := rfl

/-- The merge loop stores exactly the truthy results: the cache it
produces maps `n` to the last truthy result zipped with `n`, and falls
back to the old entry when no pair stores to `n`. -/
theorem mergeResults_eq_lastTruthy :
    ∀ (l : List (Nat × Option String)) (cache : Cache) (n : Nat),
      mergeResults cache l n =
        match lastTruthyFor n l with
        | some s => some s
        | none => cache n := by
  intro l
  induction l with
  | nil => intro cache n; rfl
  | cons p rest ih =>
    intro cache n
    obtain ⟨bn, r⟩ := p
    cases r with
    | none =>
      show mergeResults cache rest n = _
      rw [ih, lastTruthyFor_cons]
      cases lastTruthyFor n rest with
      | some s => rfl
      | none => rfl
    | some s =>
      by_cases hs : s.isEmpty
      · rw [mergeResults_cons_some, if_pos hs, ih, lastTruthyFor_cons]
        cases lastTruthyFor n rest with
        | some s2 => rfl
        | none =>
          show cache n = match (if bn = n ∧ s.isEmpty = false then some s else none) with
            | some s2 => some s2
            | none => cache n
          rw [if_neg (by simp [hs])]
      · rw [mergeResults_cons_some, if_neg hs, ih, lastTruthyFor_cons]
        cases lastTruthyFor n rest with
        | some s2 => rfl
        | none =>
          show cacheInsert cache bn s n =
            match (if bn = n ∧ s.isEmpty = false then some s else none) with
            | some s2 => some s2
            | none => cache n
          by_cases hbn : bn = n
          · rw [if_pos ⟨hbn, by simpa using hs⟩]
            subst hbn
            simp [cacheInsert]
          · rw [if_neg (by simp [hbn])]
            show (if n = bn then some s else cache n) = cache n
            rw [if_neg (fun h => hbn h.symm)]

theorem mergeResults_of_notMem (l : List (Nat × Option String)) (cache : Cache) (n : Nat)
    (h : ∀ p ∈ l, p.1 ≠ n) : mergeResults cache l n = cache n := by
  induction l generalizing cache with
  | nil => rfl
  | cons p rest ih =>
    obtain ⟨bn, r⟩ := p
    have hbn : bn ≠ n := h (bn, r) (List.mem_cons_self _ _)
    have hrest : ∀ p ∈ rest, p.1 ≠ n := fun p hp => h p (List.mem_cons_of_mem _ hp)
    cases r with
    | none => exact ih cache hrest
    | some s =>
      by_cases hs : s.isEmpty
      · simp only [mergeResults, if_pos hs]
        exact ih cache hrest
      · simp only [mergeResults, if_neg hs]
        rw [ih _ hrest]
        simp [cacheInsert, hbn.symm]

theorem mergeResults_cases (l : List (Nat × Option String)) (cache : Cache) (n : Nat) :
    mergeResults cache l n = cache n ∨
      ∃ s, mergeResults cache l n = some s ∧ s.isEmpty = false := by
  induction l generalizing cache with
  | nil => exact Or.inl rfl
  | cons p rest ih =>
    obtain ⟨bn, r⟩ := p
    cases r with
    | none => exact ih cache
    | some s =>
      by_cases hs : s.isEmpty
      · simp only [mergeResults, if_pos hs]
        exact ih cache
      · simp only [mergeResults, if_neg hs]
        rcases ih (cacheInsert cache bn s) with h | h
        · by_cases hn : n = bn
          · subst hn
            refine Or.inr ⟨s, ?_, by simpa using hs⟩
            rw [h]
            simp [cacheInsert]
          · left
            rw [h]
            simp [cacheInsert, hn]
        · exact Or.inr h

theorem mem_dedupFirst (l : List Nat) (a : Nat) : a ∈ dedupFirst l ↔ a ∈ l := by
  induction l with
  | nil => simp [dedupFirst]
  | cons x xs ih =>
    rw [dedupFirst]
    by_cases hax : a = x
    · subst hax; simp
    · simp only [List.mem_cons, hax, false_or, List.mem_filter]
      rw [ih]
      simp [hax]

theorem nodup_dedupFirst (l : List Nat) : (dedupFirst l).Nodup := by
  induction l with
  | nil => simp [dedupFirst]
  | cons x xs ih =>
    rw [dedupFirst]
    refine List.nodup_cons.mpr ⟨?_, ih.filter _⟩
    intro hx
    rw [List.mem_filter] at hx
    simp at hx

theorem dedupFirst_eq_self (l : List Nat) (h : l.Nodup) : dedupFirst l = l := by
  induction l with
  | nil => rfl
  | cons x xs ih =>
    rw [dedupFirst]
    obtain ⟨hx, hxs⟩ := List.nodup_cons.mp h
    rw [ih hxs]
    have hf : xs.filter (fun y => y ≠ x) = xs := by
      rw [List.filter_eq_self]
      intro a ha
      simp only [ne_eq, decide_not, Bool.not_eq_eq_eq_not, Bool.not_true, decide_eq_false_iff_not]
      intro heq
      exact hx (heq ▸ ha)
    rw [hf]

theorem batchCacheUpdate_pres (net : List (String × List Nat) → Option (RawResponse String))
    (cache : Cache) (bns : List Nat) (n : Nat) (s : String) (h : cache n = some s) :
    (batchCacheUpdate net cache bns).1 n = some s := by
  unfold batchCacheUpdate
  set uncached := bns.filter (fun bn => (cache bn).isNone) with huncached
  by_cases he : uncached.isEmpty
  · rw [if_pos he]; exact h
  · rw [if_neg he]
    show mergeResults cache _ n = some s
    rw [mergeResults_of_notMem]
    · exact h
    · intro p hp
      have hp1 : p.1 ∈ uncached := (List.of_mem_zip hp).1
      rw [huncached, List.mem_filter] at hp1
      intro heq
      rw [heq, h] at hp1
      simp at hp1

theorem batchCacheUpdate_cases (net : List (String × List Nat) → Option (RawResponse String))
    (cache : Cache) (bns : List Nat) (n : Nat) :
    (batchCacheUpdate net cache bns).1 n = cache n ∨
      ∃ s, (batchCacheUpdate net cache bns).1 n = some s ∧ s.isEmpty = false := by
  unfold batchCacheUpdate
  by_cases he : (bns.filter (fun bn => (cache bn).isNone)).isEmpty
  · rw [if_pos he]; exact Or.inl rfl
  · rw [if_neg he]
    exact mergeResults_cases _ cache n

/-- C3: a cached hash is never removed or overwritten: any later
`get_block_hash` or `get_block_hashes_batch` leaves the entry intact; and
once a `get_block_hash n` call has returned a truthy hash, a second call
for `n` issues no network request, leaves the cache unchanged, and
returns the same value. -/
theorem block_hash_cache_stable :
    (∀ (oracle : Nat → Option String) (cache : Cache) (m n : Nat) (h : String),
      cache n = some h → (get_block_hash oracle cache m).2.1 n = some h)
    ∧ (∀ (net : List (String × List Nat) → Option (RawResponse String)) (cache : Cache)
        (bns : List Nat) (n : Nat) (h : String),
      cache n = some h → (get_block_hashes_batch net cache bns).2.1 n = some h)
    ∧ (∀ (oracle : Nat → Option String) (cache : Cache) (n : Nat),
        truthyStr (get_block_hash oracle cache n).1 = true →
        ∀ (oracle2 : Nat → Option String),
          get_block_hash oracle2 (get_block_hash oracle cache n).2.1 n =
            ((get_block_hash oracle cache n).1, (get_block_hash oracle cache n).2.1, [])) := by
  refine ⟨?_, ?_, ?_⟩
  · intro oracle cache m n h hn
    unfold get_block_hash
    cases hm : cache m with
    | some hh => exact hn
    | none =>
      cases oracle m with
      | some s =>
        by_cases hs : s.isEmpty
        · show ((if s.isEmpty = true then ((some s : Option String), cache, [m])
            else (some s, cacheInsert cache m s, [m])).2.1) n = some h
          rw [if_pos hs]
          exact hn
        · show ((if s.isEmpty = true then ((some s : Option String), cache, [m])
            else (some s, cacheInsert cache m s, [m])).2.1) n = some h
          rw [if_neg hs]
          show cacheInsert cache m s n = some h
          unfold cacheInsert
          have hnm : n ≠ m := fun heq => by rw [heq, hm] at hn; exact Option.noConfusion hn
          rw [if_neg hnm]
          exact hn
      | none => exact hn
  · intro net cache bns n h hn
    exact batchCacheUpdate_pres net cache bns n h hn
  · intro oracle cache n htr oracle2
    unfold get_block_hash at htr ⊢
    cases hc : cache n with
    | some hh =>
      show get_block_hash oracle2 cache n = ((some hh : Option String), cache, [])
      unfold get_block_hash
      rw [hc]
    | none =>
      rw [hc] at htr
      cases horacle : oracle n with
      | none =>
        rw [horacle] at htr
        have htr2 : truthyStr (none : Option String) = true := htr
        exact absurd htr2 (by simp [truthyStr])
      | some s =>
        rw [horacle] at htr
        by_cases hs : s.isEmpty
        · have htr2 : truthyStr ((if s.isEmpty = true then ((some s : Option String), cache, [n])
            else (some s, cacheInsert cache n s, [n])).1) = true := htr
          rw [if_pos hs] at htr2
          exact absurd htr2 (by simp [truthyStr, hs])
        · show get_block_hash oracle2
            ((if s.isEmpty = true then ((some s : Option String), cache, [n])
              else (some s, cacheInsert cache n s, [n])).2.1) n =
            ((if s.isEmpty = true then ((some s : Option String), cache, [n])
              else (some s, cacheInsert cache n s, [n])).1,
             (if s.isEmpty = true then ((some s : Option String), cache, [n])
              else (some s, cacheInsert cache n s, [n])).2.1, [])
          rw [if_neg hs]
          show get_block_hash oracle2 (cacheInsert cache n s) n =
            ((some s : Option String), cacheInsert cache n s, [])
          unfold get_block_hash
          have hcn : cacheInsert cache n s n = some s := by simp [cacheInsert]
          rw [hcn]

/-- Witness for C3 at a concrete input: with an empty cache and an oracle
answering `"0xabc"` for block 7, a first `get_block_hash` stores the hash
and a second call returns it from cache with no network traffic. -/
theorem block_hash_cache_stable_witness :
    get_block_hash (fun _ => none)
        (get_block_hash (fun _ => some "0xabc") (fun _ => none) 7).2.1 7 =
      ((get_block_hash (fun _ => some "0xabc") (fun _ => none) 7).1,
        (get_block_hash (fun _ => some "0xabc") (fun _ => none) 7).2.1, []) :=
  block_hash_cache_stable.2.2 (fun _ => some "0xabc") (fun _ => none) 7 (by decide)
    (fun _ => none)

/-- C5: `get_block_hashes_batch` puts at most one batch payload on the
wire — none when every requested number is cached, and otherwise exactly
the `chain_getBlockHash` calls for the uncached requested numbers; it
merges the successful (truthy) batch results into the cache — the new
cache maps each key to the last truthy network result zipped with it
over the uncached list, falling back to the old entry, so existing
entries are never disturbed and only truthy results are added; and the
returned mapping has exactly the requested numbers as keys, each mapped
to its post-merge cache entry. -/
theorem get_block_hashes_batch_spec
    (net : List (String × List Nat) → Option (RawResponse String))
    (cache : Cache) (bns : List Nat) :
    ((bns.filter (fun bn => (cache bn).isNone)).isEmpty = true →
      (get_block_hashes_batch net cache bns).2.2 = [])
    ∧ ((bns.filter (fun bn => (cache bn).isNone)).isEmpty = false →
      (get_block_hashes_batch net cache bns).2.2 =
        [(bns.filter (fun bn => (cache bn).isNone)).map hashCall])
    ∧ (∀ n, n ∈ (get_block_hashes_batch net cache bns).1.map Prod.fst ↔ n ∈ bns)
    ∧ (∀ p ∈ (get_block_hashes_batch net cache bns).1,
        p.2 = (get_block_hashes_batch net cache bns).2.1 p.1)
    ∧ (∀ n, (get_block_hashes_batch net cache bns).2.1 n = cache n ∨
        (cache n = none ∧
          ∃ s, (get_block_hashes_batch net cache bns).2.1 n = some s ∧ s.isEmpty = false))
    ∧ (∀ n, (get_block_hashes_batch net cache bns).2.1 n =
        match lastTruthyFor n
          ((bns.filter (fun bn => (cache bn).isNone)).zip
            (batch_call net
              ((bns.filter (fun bn => (cache bn).isNone)).map hashCall)).1) with
        | some s => some s
        | none => cache n) := by
  refine ⟨?_, ?_, ?_, ?_, ?_, ?_⟩
  · intro he
    show (batchCacheUpdate net cache bns).2 = []
    unfold batchCacheUpdate
    rw [if_pos he]
  · intro he
    show (batchCacheUpdate net cache bns).2 = _
    unfold batchCacheUpdate
    rw [if_neg (by simp [he])]
    show (batch_call net _).2 = _
    unfold batch_call
    rw [if_neg (by
      rw [Bool.not_eq_true, List.isEmpty_eq_false, ne_eq, List.map_eq_nil_iff]
      rw [List.isEmpty_eq_false, ne_eq] at he
      exact he)]
  · intro n
    have hfst : (get_block_hashes_batch net cache bns).1.map Prod.fst = dedupFirst bns := by
      show ((dedupFirst bns).map
        (fun bn => (bn, (batchCacheUpdate net cache bns).1 bn))).map Prod.fst = dedupFirst bns
      rw [List.map_map]
      exact List.map_id' _
    rw [hfst]
    exact mem_dedupFirst bns n
  · intro p hp
    have hp2 : p ∈ (dedupFirst bns).map
        (fun bn => (bn, (batchCacheUpdate net cache bns).1 bn)) := hp
    obtain ⟨bn, _, heq⟩ := List.mem_map.mp hp2
    show p.2 = (batchCacheUpdate net cache bns).1 p.1
    rw [← heq]
  · intro n
    rcases batchCacheUpdate_cases net cache bns n with h | h
    · exact Or.inl h
    · cases hc : cache n with
      | none => exact Or.inr ⟨rfl, h⟩
      | some s =>
        left
        show (batchCacheUpdate net cache bns).1 n = some s
        exact batchCacheUpdate_pres net cache bns n s hc
  · intro n
    show (batchCacheUpdate net cache bns).1 n = _
    unfold batchCacheUpdate
    by_cases hemp : (bns.filter (fun bn => (cache bn).isNone)).isEmpty
    · rw [if_pos hemp]
      rw [List.isEmpty_iff.mp hemp]
      rfl
    · rw [if_neg hemp]
      show mergeResults cache _ n = _
      exact mergeResults_eq_lastTruthy _ cache n

/-- Witness for C5 at a concrete input: requesting blocks `[1, 2]` with
block 1 already cached issues exactly one batch payload, the
`chain_getBlockHash` call for block 2; and the batch result `"0xbb"`
delivered for block 2 is merged into the cache. -/
theorem get_block_hashes_batch_spec_witness :
    (get_block_hashes_batch (fun _ => none)
        (fun n => if n = 1 then some "0xaa" else none) [1, 2]).2.2 =
      [[hashCall 2]] ∧
    (get_block_hashes_batch
        (fun _ => some (RawResponse.arr [RespItem.obj (some 0) (some "0xbb")]))
        (fun n => if n = 1 then some "0xaa" else none) [1, 2]).2.1 2 = some "0xbb" := by
  constructor
  · have h := (get_block_hashes_batch_spec (fun _ => none)
      (fun n => if n = 1 then some "0xaa" else none) [1, 2]).2.1 (by decide)
    rw [h]
    rfl
  · have h := (get_block_hashes_batch_spec
      (fun _ => some (RawResponse.arr [RespItem.obj (some 0) (some "0xbb")]))
      (fun n => if n = 1 then some "0xaa" else none) [1, 2]).2.2.2.2.2 2
    exact h.trans (by decide)

/-- C10: only truthy `chain_getBlockHash` results are stored: a falsy
single lookup leaves the cache untouched while still logging a network
request, any call with the number uncached logs a request, batch merging
can only turn an absent entry into a truthy one, and a batch including an
uncached number always carries its `chain_getBlockHash` call. -/
theorem cache_no_negative_caching :
    (∀ (oracle : Nat → Option String) (cache : Cache) (n : Nat),
      cache n = none → truthyStr (oracle n) = false →
      get_block_hash oracle cache n = (oracle n, cache, [n]))
    ∧ (∀ (oracle : Nat → Option String) (cache : Cache) (n : Nat),
      cache n = none → (get_block_hash oracle cache n).2.2 = [n])
    ∧ (∀ (net : List (String × List Nat) → Option (RawResponse String)) (cache : Cache)
        (bns : List Nat) (n : Nat), cache n = none →
      (get_block_hashes_batch net cache bns).2.1 n = none ∨
        ∃ s, (get_block_hashes_batch net cache bns).2.1 n = some s ∧ s.isEmpty = false)
    ∧ (∀ (net : List (String × List Nat) → Option (RawResponse String)) (cache : Cache)
        (bns : List Nat) (n : Nat), cache n = none → n ∈ bns →
      ∃ payload ∈ (get_block_hashes_batch net cache bns).2.2, hashCall n ∈ payload) := by
  refine ⟨?_, ?_, ?_, ?_⟩
  · intro oracle cache n hc htr
    unfold get_block_hash
    rw [hc]
    cases ho : oracle n with
    | none => rfl
    | some s =>
      rw [ho] at htr
      have hs : s.isEmpty = true := by simpa [truthyStr] using htr
      show (if s.isEmpty = true then ((some s : Option String), cache, [n])
        else (some s, cacheInsert cache n s, [n])) = ((some s : Option String), cache, [n])
      rw [if_pos hs]
  · intro oracle cache n hc
    unfold get_block_hash
    rw [hc]
    cases oracle n with
    | none => rfl
    | some s =>
      show (if s.isEmpty = true then ((some s : Option String), cache, [n])
        else (some s, cacheInsert cache n s, [n])).2.2 = [n]
      split <;> rfl
  · intro net cache bns n hc
    rcases batchCacheUpdate_cases net cache bns n with h | h
    · exact Or.inl (h.trans hc)
    · exact Or.inr h
  · intro net cache bns n hc hmem
    have hn : n ∈ bns.filter (fun bn => (cache bn).isNone) := by
      rw [List.mem_filter]
      exact ⟨hmem, by rw [hc]; rfl⟩
    refine ⟨(bns.filter (fun bn => (cache bn).isNone)).map hashCall, ?_, ?_⟩
    · show _ ∈ (batchCacheUpdate net cache bns).2
      unfold batchCacheUpdate
      rw [if_neg (by
        rw [Bool.not_eq_true, List.isEmpty_eq_false, ne_eq]
        exact List.ne_nil_of_mem hn)]
      show _ ∈ (batch_call net _).2
      unfold batch_call
      rw [if_neg (by
        rw [Bool.not_eq_true, List.isEmpty_eq_false, ne_eq, List.map_eq_nil_iff]
        exact List.ne_nil_of_mem hn)]
      exact List.mem_cons_self _ _
    · exact List.mem_map_of_mem hashCall hn

/-- Witness for C10 at a concrete input: with an empty cache and an
oracle answering nothing, `get_block_hash 5` issues the request and
leaves the cache untouched, and a batch for `[5]` carries the call. -/
theorem cache_no_negative_caching_witness :
    get_block_hash (fun _ => none) (fun _ => none) 5 = (none, (fun _ => none), [5]) ∧
    ∃ payload ∈ (get_block_hashes_batch (fun _ => none) (fun _ => none) [5]).2.2,
      hashCall 5 ∈ payload := by
  constructor
  · exact cache_no_negative_caching.1 (fun _ => none) (fun _ => none) 5 rfl rfl
  · exact cache_no_negative_caching.2.2.2 (fun _ => none) (fun _ => none) [5] 5 rfl
      (List.mem_singleton.mpr rfl)

/-- C4: `get_metadata_at_version` yields `none` for an absent result, for
`"0x00"`, and for results shorter than 4 characters; otherwise a result
with the `"0x01"` success discriminant is stripped of it and decoded,
where the payload starts at hex offset 2, 4, 8 or `2 + ((t >> 2) + 4) * 2`
according to the tag byte `t`'s low two bits; any other prefix and any
unparsable tag yields `none`; `"0x0100"` decodes to the empty payload
`"0x"` and `"0x00"` to `none`. -/
theorem get_metadata_at_version_spec :
    get_metadata_at_version none = none
    ∧ get_metadata_at_version (some "0x00") = none
    ∧ (∀ r : String, r.length < 4 → get_metadata_at_version (some r) = none)
    ∧ (∀ r : String, r.isEmpty = false → r ≠ "0x00" → ¬r.length < 4 →
        pyStartsWith r "0x01" = true →
        get_metadata_at_version (some r) = decode_opaque_metadata (r.drop 4))
    ∧ (∀ r : String, r.isEmpty = false → r ≠ "0x00" → ¬r.length < 4 →
        pyStartsWith r "0x01" = false → get_metadata_at_version (some r) = none)
    ∧ (∀ (hex_data : String) (t : Nat), hex_data.isEmpty = false →
        parseHexPrefix (hex_data.take 2) = some t →
        decode_opaque_metadata hex_data = some ("0x" ++ hex_data.drop (dataStart t)))
    ∧ (∀ t : Nat, (t % 4 = 0 → dataStart t = 2) ∧ (t % 4 = 1 → dataStart t = 4) ∧
        (t % 4 = 2 → dataStart t = 8) ∧ (t % 4 = 3 → dataStart t = 2 + (t / 4 + 4) * 2))
    ∧ (∀ hex_data : String, parseHexPrefix (hex_data.take 2) = none →
        decode_opaque_metadata hex_data = none)
    ∧ get_metadata_at_version (some "0x0100") = some "0x" := by
  refine ⟨rfl, by decide, ?_, ?_, ?_, ?_, ?_, ?_, by decide⟩
  · intro r hr
    unfold get_metadata_at_version
    show (if r.isEmpty = true ∨ r = "0x00" ∨ r.length < 4 then none
      else if pyStartsWith r "0x01" = true then decode_opaque_metadata (r.drop 4)
      else none) = none
    rw [if_pos (Or.inr (Or.inr hr))]
  · intro r h1 h2 h3 h4
    unfold get_metadata_at_version
    show (if r.isEmpty = true ∨ r = "0x00" ∨ r.length < 4 then none
      else if pyStartsWith r "0x01" = true then decode_opaque_metadata (r.drop 4)
      else none) = decode_opaque_metadata (r.drop 4)
    rw [if_neg (by
      rintro (h | h | h)
      · rw [h1] at h; exact Bool.false_ne_true h
      · exact h2 h
      · exact h3 h)]
    rw [if_pos h4]
  · intro r h1 h2 h3 h4
    unfold get_metadata_at_version
    show (if r.isEmpty = true ∨ r = "0x00" ∨ r.length < 4 then none
      else if pyStartsWith r "0x01" = true then decode_opaque_metadata (r.drop 4)
      else none) = none
    rw [if_neg (by
      rintro (h | h | h)
      · rw [h1] at h; exact Bool.false_ne_true h
      · exact h2 h
      · exact h3 h)]
    rw [if_neg (by rw [h4]; exact Bool.false_ne_true)]
  · intro hex_data t hne hparse
    unfold decode_opaque_metadata
    rw [if_neg (by rw [hne]; exact Bool.false_ne_true), hparse]
  · intro t
    refine ⟨?_, ?_, ?_, ?_⟩
    · intro h; unfold dataStart; rw [if_pos h]
    · intro h; unfold dataStart; rw [if_neg (by omega), if_pos h]
    · intro h; unfold dataStart; rw [if_neg (by omega), if_neg (by omega), if_pos h]
    · intro h; unfold dataStart; rw [if_neg (by omega), if_neg (by omega), if_neg (by omega)]
  · intro hex_data hparse
    unfold decode_opaque_metadata
    by_cases he : hex_data.isEmpty
    · rw [if_pos he]
    · rw [if_neg he, hparse]

/-- Witness for C4 at concrete inputs: `"0x01ab"` is stripped to `"ab"`
and decoded, and the tag byte `0xab` (low bits `11`) places the payload
at offset `2 + ((0xab >> 2) + 4) * 2`. -/
theorem get_metadata_at_version_spec_witness :
    get_metadata_at_version (some "0x01ab") = decode_opaque_metadata ("0x01ab".drop 4) ∧
    decode_opaque_metadata "ab" = some ("0x" ++ "ab".drop (dataStart 171)) ∧
    dataStart 171 = 2 + (171 / 4 + 4) * 2 := by
  refine ⟨?_, ?_, ?_⟩
  · exact get_metadata_at_version_spec.2.2.2.1 "0x01ab" (by decide) (by decide)
      (by decide) (by decide)
  · exact get_metadata_at_version_spec.2.2.2.2.2.1 "ab" 171 (by decide) (by decide)
  · exact (get_metadata_at_version_spec.2.2.2.2.2.2.1 171).2.2.2 (by decide)

/-- C8: the final block and event sequences handed to the output writer
are each sorted ascending by block number, and are a permutation of the
aggregated records — so the ordering holds no matter in which order the
worker batches completed and were concatenated. -/
theorem output_sorted (blocks : List BlockRecord) (eventRecords : List EventRecord) :
    List.Sorted (fun a b => a.blockNumber ≤ b.blockNumber) (sortBlockRecords blocks)
    ∧ (sortBlockRecords blocks).Perm blocks
    ∧ List.Sorted (fun a b => a.blockNumber ≤ b.blockNumber) (sortEventRecords eventRecords)
    ∧ (sortEventRecords eventRecords).Perm eventRecords := by
  refine ⟨?_, List.mergeSort_perm blocks _, ?_, List.mergeSort_perm eventRecords _⟩
  · have h := @List.sorted_mergeSort BlockRecord
      (fun a b => decide (a.blockNumber ≤ b.blockNumber))
      (fun a b c hab hbc => by
        simp only [decide_eq_true_eq] at hab hbc ⊢; omega)
      (fun a b => by
        simp only [Bool.or_eq_true, decide_eq_true_eq]; omega)
      blocks
    exact List.Pairwise.imp (fun hab => by simpa using hab) h
  · have h := @List.sorted_mergeSort EventRecord
      (fun a b => decide (a.blockNumber ≤ b.blockNumber))
      (fun a b c hab hbc => by
        simp only [decide_eq_true_eq] at hab hbc ⊢; omega)
      (fun a b => by
        simp only [Bool.or_eq_true, decide_eq_true_eq]; omega)
      eventRecords
    exact List.Pairwise.imp (fun hab => by simpa using hab) h

/-! ### Unfolding equations for the retry loop -/

theorem fetchRetryGo_ok_complete {σ β ε : Type}
    (step : Nat → σ → Except Unit ((List β × List ε) × σ)) (count a : Nat) (s : σ)
    (b : List β) (e : List ε) (s2 : σ) (ha : a < MAX_RETRIES)
    (hstep : step a s = .ok ((b, e), s2)) (hlen : b.length = count) :
    fetchRetryGo step count a s = (((b, e), s2), [], [a]) := by
  unfold fetchRetryGo
  rw [dif_pos ha, hstep]
  show (if b.length = count then (((b, e), s2), [], [a])
    else if a = MAX_RETRIES - 1 then (((b, e), s2), [], [a])
    else
      ((fetchRetryGo step count (a + 1) s2).1,
        RETRY_DELAY * ((a : ℚ) + 1) :: (fetchRetryGo step count (a + 1) s2).2.1,
        a :: (fetchRetryGo step count (a + 1) s2).2.2)) = (((b, e), s2), [], [a])
  rw [if_pos hlen]

theorem fetchRetryGo_ok_ret {σ β ε : Type}
    (step : Nat → σ → Except Unit ((List β × List ε) × σ)) (count a : Nat) (s : σ)
    (b : List β) (e : List ε) (s2 : σ) (ha : a < MAX_RETRIES)
    (hstep : step a s = .ok ((b, e), s2)) (hlast : a = MAX_RETRIES - 1) :
    fetchRetryGo step count a s = (((b, e), s2), [], [a]) := by
  unfold fetchRetryGo
  rw [dif_pos ha, hstep]
  show (if b.length = count then (((b, e), s2), [], [a])
    else if a = MAX_RETRIES - 1 then (((b, e), s2), [], [a])
    else
      ((fetchRetryGo step count (a + 1) s2).1,
        RETRY_DELAY * ((a : ℚ) + 1) :: (fetchRetryGo step count (a + 1) s2).2.1,
        a :: (fetchRetryGo step count (a + 1) s2).2.2)) = (((b, e), s2), [], [a])
  by_cases hlen : b.length = count
  · rw [if_pos hlen]
  · rw [if_neg hlen, if_pos hlast]

theorem fetchRetryGo_ok_retry {σ β ε : Type}
    (step : Nat → σ → Except Unit ((List β × List ε) × σ)) (count a : Nat) (s : σ)
    (b : List β) (e : List ε) (s2 : σ) (ha : a < MAX_RETRIES)
    (hstep : step a s = .ok ((b, e), s2)) (hlen : b.length ≠ count)
    (hlast : a ≠ MAX_RETRIES - 1) :
    fetchRetryGo step count a s =
      ((fetchRetryGo step count (a + 1) s2).1,
        RETRY_DELAY * ((a : ℚ) + 1) :: (fetchRetryGo step count (a + 1) s2).2.1,
        a :: (fetchRetryGo step count (a + 1) s2).2.2) := by
  conv_lhs => rw [fetchRetryGo]
  rw [dif_pos ha, hstep]
  show (if b.length = count then (((b, e), s2), [], [a])
    else if a = MAX_RETRIES - 1 then (((b, e), s2), [], [a])
    else
      ((fetchRetryGo step count (a + 1) s2).1,
        RETRY_DELAY * ((a : ℚ) + 1) :: (fetchRetryGo step count (a + 1) s2).2.1,
        a :: (fetchRetryGo step count (a + 1) s2).2.2)) = _
  rw [if_neg hlen, if_neg hlast]

theorem fetchRetryGo_err_last {σ β ε : Type}
    (step : Nat → σ → Except Unit ((List β × List ε) × σ)) (count a : Nat) (s : σ)
    (ha : a < MAX_RETRIES) (hstep : step a s = .error ()) (hlast : a = MAX_RETRIES - 1) :
    fetchRetryGo step count a s = ((([], []), s), [], [a]) := by
  unfold fetchRetryGo
  rw [dif_pos ha, hstep]
  show (if a = MAX_RETRIES - 1 then ((([], []), s), [], [a])
    else
      ((fetchRetryGo step count (a + 1) s).1,
        RETRY_DELAY * ((a : ℚ) + 1) :: (fetchRetryGo step count (a + 1) s).2.1,
        a :: (fetchRetryGo step count (a + 1) s).2.2)) = ((([], []), s), [], [a])
  rw [if_pos hlast]

theorem fetchRetryGo_err_retry {σ β ε : Type}
    (step : Nat → σ → Except Unit ((List β × List ε) × σ)) (count a : Nat) (s : σ)
    (ha : a < MAX_RETRIES) (hstep : step a s = .error ()) (hlast : a ≠ MAX_RETRIES - 1) :
    fetchRetryGo step count a s =
      ((fetchRetryGo step count (a + 1) s).1,
        RETRY_DELAY * ((a : ℚ) + 1) :: (fetchRetryGo step count (a + 1) s).2.1,
        a :: (fetchRetryGo step count (a + 1) s).2.2) := by
  conv_lhs => rw [fetchRetryGo]
  rw [dif_pos ha, hstep]
  show (if a = MAX_RETRIES - 1 then ((([], []), s), [], [a])
    else
      ((fetchRetryGo step count (a + 1) s).1,
        RETRY_DELAY * ((a : ℚ) + 1) :: (fetchRetryGo step count (a + 1) s).2.1,
        a :: (fetchRetryGo step count (a + 1) s).2.2)) = _
  rw [if_neg hlast]

/-- The attempt indices at which the loop ran form a consecutive block
starting at the initial attempt, with a sleep after every non-final
executed attempt. -/
theorem fetchRetryGo_atts {σ β ε : Type}
    (step : Nat → σ → Except Unit ((List β × List ε) × σ)) (count : Nat) :
    ∀ (d a : Nat) (s : σ), MAX_RETRIES - a = d → a < MAX_RETRIES →
      ∃ len, 1 ≤ len ∧ a + len ≤ MAX_RETRIES ∧
        (fetchRetryGo step count a s).2.2 = List.range' a len ∧
        (fetchRetryGo step count a s).2.1 =
          (List.range' a (len - 1)).map (fun i : ℕ => RETRY_DELAY * ((i : ℚ) + 1)) := by
  intro d
  induction d with
  | zero => intro a s hd ha; omega
  | succ d ih =>
    intro a s hd ha
    by_cases hlast : a = MAX_RETRIES - 1
    · cases hstep : step a s with
      | ok pr =>
        obtain ⟨⟨b, e⟩, s2⟩ := pr
        rw [fetchRetryGo_ok_ret step count a s b e s2 ha hstep hlast]
        exact ⟨1, le_refl 1, by omega, rfl, rfl⟩
      | error u =>
        cases u
        rw [fetchRetryGo_err_last step count a s ha hstep hlast]
        exact ⟨1, le_refl 1, by omega, rfl, rfl⟩
    · cases hstep : step a s with
      | ok pr =>
        obtain ⟨⟨b, e⟩, s2⟩ := pr
        by_cases hlen : b.length = count
        · rw [fetchRetryGo_ok_complete step count a s b e s2 ha hstep hlen]
          exact ⟨1, le_refl 1, by omega, rfl, rfl⟩
        · rw [fetchRetryGo_ok_retry step count a s b e s2 ha hstep hlen hlast]
          obtain ⟨len, h1, h2, h3, h4⟩ := ih (a + 1) s2 (by omega) (by omega)
          obtain ⟨len2, rfl⟩ : ∃ len2, len = len2 + 1 := ⟨len - 1, by omega⟩
          refine ⟨len2 + 2, by omega, by omega, ?_, ?_⟩
          · show a :: (fetchRetryGo step count (a + 1) s2).2.2 = List.range' a (len2 + 2)
            rw [h3]
            simp [List.range'_succ]
          · show RETRY_DELAY * ((a : ℚ) + 1) ::
              (fetchRetryGo step count (a + 1) s2).2.1 = _
            rw [h4]
            simp only [Nat.add_sub_cancel]
            show _ = (List.range' a (len2 + 1)).map (fun i : ℕ => RETRY_DELAY * ((i : ℚ) + 1))
            rw [List.range'_succ, List.map_cons]
      | error u =>
        cases u
        rw [fetchRetryGo_err_retry step count a s ha hstep hlast]
        obtain ⟨len, h1, h2, h3, h4⟩ := ih (a + 1) s (by omega) (by omega)
        obtain ⟨len2, rfl⟩ : ∃ len2, len = len2 + 1 := ⟨len - 1, by omega⟩
        refine ⟨len2 + 2, by omega, by omega, ?_, ?_⟩
        · show a :: (fetchRetryGo step count (a + 1) s).2.2 = List.range' a (len2 + 2)
          rw [h3]
          simp [List.range'_succ]
        · show RETRY_DELAY * ((a : ℚ) + 1) ::
            (fetchRetryGo step count (a + 1) s).2.1 = _
          rw [h4]
          simp only [Nat.add_sub_cancel]
          show _ = (List.range' a (len2 + 1)).map (fun i : ℕ => RETRY_DELAY * ((i : ℚ) + 1))
          rw [List.range'_succ, List.map_cons]

/-- C2: the retrying fetcher runs at most `MAX_RETRIES = 3` attempts, in
order 0, 1, 2, always over the same requested set (the step depends only
on the attempt index); it returns immediately when an attempt's block
count equals the requested count; before re-attempt `a + 1` it sleeps
`RETRY_DELAY * (a + 1)` (linearly increasing); an incomplete result on
the final attempt is returned as-is; an exception on a non-final attempt
behaves exactly like an incomplete result (same sleep, same retry); and
an exception on the final attempt yields empty block and event lists. -/
theorem fetch_retry_spec {β ε : Type} (impl : Nat → Except Unit (List β × List ε))
    (count : Nat) :
    (∃ k, 1 ≤ k ∧ k ≤ MAX_RETRIES ∧
      (fetchRetryAbs impl count).2.2 = List.range k ∧
      (fetchRetryAbs impl count).2.1 =
        (List.range (k - 1)).map (fun i : ℕ => RETRY_DELAY * ((i : ℚ) + 1)))
    ∧ (∀ (b : List β) (e : List ε), impl 0 = .ok (b, e) → b.length = count →
        fetchRetryAbs impl count = ((b, e), [], [0]))
    ∧ (∀ (a : Nat) (s : Unit) (b : List β) (e : List ε), a < MAX_RETRIES →
        impl a = .ok (b, e) → b.length = count →
        fetchRetryGo (fun i _ => (impl i).map (fun be => (be, ()))) count a s =
          (((b, e), ()), [], [a]))
    ∧ (∀ (a : Nat) (s : Unit), a + 1 < MAX_RETRIES →
        (impl a = .error () ∨ ∃ b e, impl a = .ok (b, e) ∧ b.length ≠ count) →
        fetchRetryGo (fun i _ => (impl i).map (fun be => (be, ()))) count a s =
          ((fetchRetryGo (fun i _ => (impl i).map (fun be => (be, ()))) count (a + 1) ()).1,
           RETRY_DELAY * ((a : ℚ) + 1) ::
             (fetchRetryGo (fun i _ => (impl i).map (fun be => (be, ()))) count (a + 1) ()).2.1,
           a :: (fetchRetryGo (fun i _ =>
             (impl i).map (fun be => (be, ()))) count (a + 1) ()).2.2))
    ∧ (∀ (s : Unit) (b : List β) (e : List ε), impl (MAX_RETRIES - 1) = .ok (b, e) →
        fetchRetryGo (fun i _ => (impl i).map (fun be => (be, ()))) count (MAX_RETRIES - 1) s =
          (((b, e), ()), [], [MAX_RETRIES - 1]))
    ∧ (∀ (s : Unit), impl (MAX_RETRIES - 1) = .error () →
        fetchRetryGo (fun i _ => (impl i).map (fun be => (be, ()))) count (MAX_RETRIES - 1) s =
          ((([], []), ()), [], [MAX_RETRIES - 1])) := by
  refine ⟨?_, ?_, ?_, ?_, ?_, ?_⟩
  · obtain ⟨len, h1, h2, h3, h4⟩ :=
      fetchRetryGo_atts (fun i (_ : Unit) => (impl i).map (fun be => (be, ()))) count
        MAX_RETRIES 0 () rfl (by decide)
    refine ⟨len, h1, by omega, ?_, ?_⟩
    · show (fetchRetryGo (fun i _ => (impl i).map (fun be => (be, ()))) count 0 ()).2.2 = _
      rw [h3, List.range_eq_range']
    · show (fetchRetryGo (fun i _ => (impl i).map (fun be => (be, ()))) count 0 ()).2.1 = _
      rw [h4, List.range_eq_range']
  · intro b e himpl hlen
    show ((fetchRetryGo (fun i _ => (impl i).map (fun be => (be, ()))) count 0 ()).1.1,
      (fetchRetryGo (fun i _ => (impl i).map (fun be => (be, ()))) count 0 ()).2) = _
    rw [fetchRetryGo_ok_complete _ count 0 () b e () (by decide)
      (by rw [himpl]; rfl) hlen]
  · intro a s b e ha himpl hlen
    exact fetchRetryGo_ok_complete _ count a s b e () ha (by rw [himpl]; rfl) hlen
  · intro a s ha hfail
    cases s
    rcases hfail with herr | ⟨b, e, hok, hlen⟩
    · exact fetchRetryGo_err_retry _ count a () (by omega) (by rw [herr]; rfl) (by omega)
    · exact fetchRetryGo_ok_retry _ count a () b e () (by omega) (by rw [hok]; rfl)
        hlen (by omega)
  · intro s b e himpl
    cases s
    exact fetchRetryGo_ok_ret _ count (MAX_RETRIES - 1) () b e () (by decide)
      (by rw [himpl]; rfl) rfl
  · intro s himpl
    cases s
    exact fetchRetryGo_err_last _ count (MAX_RETRIES - 1) () (by decide)
      (by rw [himpl]; rfl) rfl

/-- Witness for C2 at concrete inputs: an always-successful step of
matching length returns immediately with no sleep, and a final-attempt
exception yields empty results. -/
theorem fetch_retry_spec_witness :
    fetchRetryAbs (fun _ => (Except.ok ([7], [9]) : Except Unit (List Nat × List Nat))) 1 =
      (([7], [9]), [], [0]) ∧
    fetchRetryGo
      (fun i _ => (((fun _ => (Except.error () : Except Unit (List Nat × List Nat)))) i).map
        (fun be => (be, ()))) 0 (MAX_RETRIES - 1) () =
      ((([], []), ()), [], [MAX_RETRIES - 1]) :=
  ⟨(fetch_retry_spec (fun _ => Except.ok ([7], [9])) 1).2.1 [7] [9] rfl rfl,
   (fetch_retry_spec (fun _ => Except.error ()) 0).2.2.2.2.2 () rfl⟩

/-! ### Lemmas about the per-attempt fetch -/

theorem length_batchCallResults {V : Type} (n : Nat) (raw : Option (RawResponse V)) :
    (batchCallResults n raw).length = n := by
  cases raw with
  | none => simp [batchCallResults]
  | some r =>
    cases r with
    | dict => simp [batchCallResults]
    | arr items =>
      show (fillResults n (List.replicate n none) items).length = n
      rw [length_fillResults, List.length_replicate]

theorem length_batch_call_fst {C V : Type} (net : List C → Option (RawResponse V))
    (calls : List C) : (batch_call net calls).1.length = calls.length := by
  unfold batch_call
  by_cases h : calls.isEmpty
  · rw [if_pos h]
    simp [List.isEmpty_iff.mp h]
  · rw [if_neg h]
    show (batchCallResults calls.length (net calls)).length = _
    exact length_batchCallResults _ _

theorem batch_call_log {C V : Type} (net : List C → Option (RawResponse V))
    (calls : List C) (h : calls ≠ []) : (batch_call net calls).2 = [calls] := by
  unfold batch_call
  rw [if_neg (by simpa using h)]

theorem buildRecords_eq : ∀ (vs : List (Nat × String)) (bds : List (Option BlockData))
    (evs : List (Option String)), bds.length = vs.length → evs.length = vs.length →
    buildRecords vs bds evs =
      ((vs.zip bds).filterMap (fun q => q.2.map (fun bd => mkBlockRecord q.1.1 bd)),
       (vs.zip evs).filterMap (fun q =>
         match q.2 with
         | some ev =>
           if ev.isEmpty then none else some { blockNumber := q.1.1, events := ev }
         | none => none)) := by
  intro vs
  induction vs with
  | nil => intro bds evs _ _; rfl
  | cons v vs ih =>
    intro bds evs hb he
    obtain ⟨bn, hsh⟩ := v
    cases bds with
    | nil => simp at hb
    | cons bd? bds =>
      cases evs with
      | nil => simp at he
      | cons ev? evs =>
        simp only [List.length_cons, Nat.add_right_cancel_iff] at hb he
        have ihh := ih bds evs hb he
        show ((match bd? with
            | some bd => mkBlockRecord bn bd :: (buildRecords vs bds evs).1
            | none => (buildRecords vs bds evs).1),
          (match ev? with
            | some ev =>
              if ev.isEmpty then (buildRecords vs bds evs).2
              else { blockNumber := bn, events := ev } :: (buildRecords vs bds evs).2
            | none => (buildRecords vs bds evs).2)) = _
        rw [ihh]
        rw [List.zip_cons_cons, List.zip_cons_cons, List.filterMap_cons, List.filterMap_cons]
        cases bd? with
        | none =>
          cases ev? with
          | none => rfl
          | some ev => by_cases hev : ev.isEmpty <;> simp [hev]
        | some bd =>
          cases ev? with
          | none => rfl
          | some ev => by_cases hev : ev.isEmpty <;> simp [hev]

theorem fetch_impl_empty
    (hnet : List (String × List Nat) → Option (RawResponse String))
    (bnet : List (String × List String) → Option (RawResponse BlockData))
    (enet : List (String × List String) → Option (RawResponse String))
    (cache : Cache) (bns : List Nat)
    (h : (validBlocks (get_block_hashes_batch hnet cache bns).1).isEmpty = true) :
    fetch_impl hnet bnet enet cache bns =
      (([], []), (get_block_hashes_batch hnet cache bns).2.1,
        ((get_block_hashes_batch hnet cache bns).2.2, [], [])) := by
  simp only [fetch_impl]
  rw [if_pos h]

theorem fetch_impl_nonempty
    (hnet : List (String × List Nat) → Option (RawResponse String))
    (bnet : List (String × List String) → Option (RawResponse BlockData))
    (enet : List (String × List String) → Option (RawResponse String))
    (cache : Cache) (bns : List Nat)
    (h : (validBlocks (get_block_hashes_batch hnet cache bns).1).isEmpty = false) :
    fetch_impl hnet bnet enet cache bns =
      (buildRecords (validBlocks (get_block_hashes_batch hnet cache bns).1)
          (batch_call bnet ((validBlocks (get_block_hashes_batch hnet cache bns).1).map
            (fun p => blockCall p.2))).1
          (batch_call enet ((validBlocks (get_block_hashes_batch hnet cache bns).1).map
            (fun p => storageCall p.2))).1,
        (get_block_hashes_batch hnet cache bns).2.1,
        ((get_block_hashes_batch hnet cache bns).2.2,
          (batch_call bnet ((validBlocks (get_block_hashes_batch hnet cache bns).1).map
            (fun p => blockCall p.2))).2,
          (batch_call enet ((validBlocks (get_block_hashes_batch hnet cache bns).1).map
            (fun p => storageCall p.2))).2)) := by
  simp only [fetch_impl]
  rw [if_neg (by simp [h])]

/-- C6: within one fetch attempt, only the (number, hash) pairs whose
hash resolved truthy are kept; if none did, no block or event batch call
is issued and no records are produced; otherwise the `chain_getBlock`
batch and the `state_getStorage` batch each target exactly the resolved
hashes; a block record is emitted for a kept pair iff its block result
is present and an event record iff its storage result is truthy
(independently); and every emitted record's number is one of the
resolved numbers — unresolved numbers contribute nothing, with no
exception (the model is total). -/
theorem fetch_impl_spec
    (hnet : List (String × List Nat) → Option (RawResponse String))
    (bnet : List (String × List String) → Option (RawResponse BlockData))
    (enet : List (String × List String) → Option (RawResponse String))
    (cache : Cache) (bns : List Nat) :
    ((validBlocks (get_block_hashes_batch hnet cache bns).1).isEmpty = true →
      fetch_impl hnet bnet enet cache bns =
        (([], []), (get_block_hashes_batch hnet cache bns).2.1,
          ((get_block_hashes_batch hnet cache bns).2.2, [], [])))
    ∧ ((validBlocks (get_block_hashes_batch hnet cache bns).1).isEmpty = false →
      (fetch_impl hnet bnet enet cache bns).2.2.2.1 =
          [(validBlocks (get_block_hashes_batch hnet cache bns).1).map
            (fun p => blockCall p.2)] ∧
      (fetch_impl hnet bnet enet cache bns).2.2.2.2 =
          [(validBlocks (get_block_hashes_batch hnet cache bns).1).map
            (fun p => storageCall p.2)])
    ∧ ((fetch_impl hnet bnet enet cache bns).1.1 =
        ((validBlocks (get_block_hashes_batch hnet cache bns).1).zip
          (batch_call bnet ((validBlocks (get_block_hashes_batch hnet cache bns).1).map
            (fun p => blockCall p.2))).1).filterMap
          (fun q => q.2.map (fun bd => mkBlockRecord q.1.1 bd)))
    ∧ ((fetch_impl hnet bnet enet cache bns).1.2 =
        ((validBlocks (get_block_hashes_batch hnet cache bns).1).zip
          (batch_call enet ((validBlocks (get_block_hashes_batch hnet cache bns).1).map
            (fun p => storageCall p.2))).1).filterMap
          (fun q =>
            match q.2 with
            | some ev =>
              if ev.isEmpty then none else some { blockNumber := q.1.1, events := ev }
            | none => none))
    ∧ (∀ r ∈ (fetch_impl hnet bnet enet cache bns).1.1,
        r.blockNumber ∈ (validBlocks (get_block_hashes_batch hnet cache bns).1).map Prod.fst)
    ∧ (∀ ev ∈ (fetch_impl hnet bnet enet cache bns).1.2,
        ev.blockNumber ∈
          (validBlocks (get_block_hashes_batch hnet cache bns).1).map Prod.fst) := by
  have hrec : fetch_impl hnet bnet enet cache bns =
      (buildRecords (validBlocks (get_block_hashes_batch hnet cache bns).1)
          (batch_call bnet ((validBlocks (get_block_hashes_batch hnet cache bns).1).map
            (fun p => blockCall p.2))).1
          (batch_call enet ((validBlocks (get_block_hashes_batch hnet cache bns).1).map
            (fun p => storageCall p.2))).1,
        (get_block_hashes_batch hnet cache bns).2.1,
        ((get_block_hashes_batch hnet cache bns).2.2,
          (fetch_impl hnet bnet enet cache bns).2.2.2.1,
          (fetch_impl hnet bnet enet cache bns).2.2.2.2)) ∨
      ((validBlocks (get_block_hashes_batch hnet cache bns).1) = [] ∧
        fetch_impl hnet bnet enet cache bns =
          (([], []), (get_block_hashes_batch hnet cache bns).2.1,
            ((get_block_hashes_batch hnet cache bns).2.2, [], []))) := by
    by_cases hv : (validBlocks (get_block_hashes_batch hnet cache bns).1).isEmpty
    · exact Or.inr ⟨List.isEmpty_iff.mp hv, fetch_impl_empty hnet bnet enet cache bns hv⟩
    · left
      rw [fetch_impl_nonempty hnet bnet enet cache bns (by simpa using hv)]
  have hbuild := buildRecords_eq (validBlocks (get_block_hashes_batch hnet cache bns).1)
    (batch_call bnet ((validBlocks (get_block_hashes_batch hnet cache bns).1).map
      (fun p => blockCall p.2))).1
    (batch_call enet ((validBlocks (get_block_hashes_batch hnet cache bns).1).map
      (fun p => storageCall p.2))).1
    (by rw [length_batch_call_fst, List.length_map])
    (by rw [length_batch_call_fst, List.length_map])
  have hc3 : (fetch_impl hnet bnet enet cache bns).1.1 =
      ((validBlocks (get_block_hashes_batch hnet cache bns).1).zip
        (batch_call bnet ((validBlocks (get_block_hashes_batch hnet cache bns).1).map
          (fun p => blockCall p.2))).1).filterMap
        (fun q => q.2.map (fun bd => mkBlockRecord q.1.1 bd)) := by
    rcases hrec with h | ⟨hvnil, h⟩
    · rw [h]
      show (buildRecords _ _ _).1 = _
      rw [hbuild]
    · rw [h, hvnil]
      simp
  have hc4 : (fetch_impl hnet bnet enet cache bns).1.2 =
      ((validBlocks (get_block_hashes_batch hnet cache bns).1).zip
        (batch_call enet ((validBlocks (get_block_hashes_batch hnet cache bns).1).map
          (fun p => storageCall p.2))).1).filterMap
        (fun q =>
          match q.2 with
          | some ev =>
            if ev.isEmpty then none else some { blockNumber := q.1.1, events := ev }
          | none => none) := by
    rcases hrec with h | ⟨hvnil, h⟩
    · rw [h]
      show (buildRecords _ _ _).2 = _
      rw [hbuild]
    · rw [h, hvnil]
      simp
  refine ⟨fetch_impl_empty hnet bnet enet cache bns, ?_, hc3, hc4, ?_, ?_⟩
  · intro hv
    have hvne : (validBlocks (get_block_hashes_batch hnet cache bns).1) ≠ [] := by
      simpa using hv
    rw [fetch_impl_nonempty hnet bnet enet cache bns hv]
    constructor
    · show (batch_call bnet _).2 = _
      exact batch_call_log _ _ (by simpa using hvne)
    · show (batch_call enet _).2 = _
      exact batch_call_log _ _ (by simpa using hvne)
  · intro r hr
    rw [hc3] at hr
    obtain ⟨q, hq, heq⟩ := List.mem_filterMap.mp hr
    cases hq2 : q.2 with
    | none => rw [hq2] at heq; exact absurd heq (by simp)
    | some bd =>
      rw [hq2] at heq
      have heq2 : some (mkBlockRecord q.1.1 bd) = some r := heq
      have hbn : r.blockNumber = q.1.1 := by
        rw [← Option.some_inj.mp heq2]
        rfl
      rw [hbn]
      exact List.mem_map_of_mem Prod.fst (List.of_mem_zip hq).1
  · intro ev hev
    rw [hc4] at hev
    obtain ⟨q, hq, heq⟩ := List.mem_filterMap.mp hev
    cases hq2 : q.2 with
    | none => rw [hq2] at heq; exact absurd heq (by simp)
    | some evs =>
      rw [hq2] at heq
      have heq2 : (if evs.isEmpty = true then none
          else some ({ blockNumber := q.1.1, events := evs } : EventRecord)) = some ev := heq
      by_cases he : evs.isEmpty
      · rw [if_pos he] at heq2
        exact absurd heq2 (by simp)
      · rw [if_neg he] at heq2
        have hbn : ev.blockNumber = q.1.1 := by
          rw [← Option.some_inj.mp heq2]
        rw [hbn]
        exact List.mem_map_of_mem Prod.fst (List.of_mem_zip hq).1

/-- Witness for C6 at concrete inputs: one number resolving to hash
`"0xh"`, a failing block batch and a successful event batch — both batch
calls target exactly `["0xh"]`, and the number yields an event record
but no block record. -/
theorem fetch_impl_spec_witness :
    (fetch_impl (fun _ => some (RawResponse.arr [RespItem.obj (some 0) (some "0xh")]))
      (fun _ => none)
      (fun _ => some (RawResponse.arr [RespItem.obj (some 0) (some "0xev")]))
      (fun _ => none) [4]).2.2.2.1 = [[blockCall "0xh"]] ∧
    (fetch_impl (fun _ => some (RawResponse.arr [RespItem.obj (some 0) (some "0xh")]))
      (fun _ => none)
      (fun _ => some (RawResponse.arr [RespItem.obj (some 0) (some "0xev")]))
      (fun _ => none) [4]).2.2.2.2 = [[storageCall "0xh"]] := by
  have h := (fetch_impl_spec
    (fun _ => some (RawResponse.arr [RespItem.obj (some 0) (some "0xh")]))
    (fun _ => none)
    (fun _ => some (RawResponse.arr [RespItem.obj (some 0) (some "0xev")]))
    (fun _ => none) [4]).2.1 (by decide)
  exact ⟨h.1.trans (by decide), h.2.trans (by decide)⟩

/-! ### Lemmas about fully successful scenarios -/

theorem lastHit_enumFrom {C V : Type} (f : C → V) :
    ∀ (l : List C) (k j n : Nat), k + l.length ≤ n →
      lastHit n j ((l.enumFrom k).map
        (fun p => RespItem.obj (V := V) (some (p.1 : Int)) (some (f p.2)))) =
      if k ≤ j then (l[j - k]?).map (fun c => some (f c)) else none := by
  intro l
  induction l with
  | nil =>
    intro k j n _
    simp [lastHit]
  | cons c l ih =>
    intro k j n hn
    rw [List.enumFrom_cons, List.map_cons, lastHit_cons,
      ih (k + 1) j n (by simp only [List.length_cons] at hn; omega)]
    by_cases hkj : k + 1 ≤ j
    · rw [if_pos hkj]
      have hjk : j - k = (j - (k + 1)) + 1 := by omega
      cases hget : l[j - (k + 1)]? with
      | some c2 =>
        show some (some (f c2)) = _
        rw [if_pos (by omega), hjk, List.getElem?_cons_succ, hget]
        rfl
      | none =>
        show (if hitsId n j (RespItem.obj (some ((k : Int))) (some (f c))) = true
          then some (itemResult (RespItem.obj (some ((k : Int))) (some (f c)))) else none) = _
        have hhit : hitsId n j (RespItem.obj (V := V) (some ((k : Int))) (some (f c))) = false := by
          simp only [hitsId, decide_eq_false_iff_not]
          intro hcon
          have := hcon.2.2
          simp only [Int.toNat_natCast] at this
          omega
        rw [hhit]
        show none = _
        rw [if_pos (by omega), hjk, List.getElem?_cons_succ, hget]
        rfl
    · rw [if_neg hkj]
      show (if hitsId n j (RespItem.obj (some ((k : Int))) (some (f c))) = true
        then some (itemResult (RespItem.obj (some ((k : Int))) (some (f c)))) else none) = _
      by_cases hjk : j = k
      · have hhit : hitsId n j (RespItem.obj (V := V) (some ((k : Int))) (some (f c))) = true := by
          simp only [hitsId, decide_eq_true_eq]
          refine ⟨Int.natCast_nonneg k, ?_, ?_⟩
          · have hkn : k < n := by simp only [List.length_cons] at hn; omega
            exact_mod_cast hkn
          · simp only [Int.toNat_natCast]
            omega
        rw [hhit]
        show some (some (f c)) = _
        rw [if_pos (by omega)]
        have : j - k = 0 := by omega
        rw [this, List.getElem?_cons_zero]
        rfl
      · have hhit : hitsId n j (RespItem.obj (V := V) (some ((k : Int))) (some (f c))) = false := by
          simp only [hitsId, decide_eq_false_iff_not]
          intro hcon
          have := hcon.2.2
          simp only [Int.toNat_natCast] at this
          omega
        rw [hhit]
        show none = _
        rw [if_neg (by omega)]

theorem batchCallResults_perfect {C V : Type} (f : C → V) (calls : List C) :
    batchCallResults calls.length (perfectNet f calls) = calls.map (fun c => some (f c)) := by
  have hlen : (batchCallResults calls.length (perfectNet f calls)).length = calls.length :=
    length_batchCallResults _ _
  have hslot : ∀ i, i < calls.length →
      (batchCallResults calls.length (perfectNet f calls)).getD i none =
        ((calls[i]?).map (fun c => some (f c))).getD none := by
    intro i hi
    show (fillResults calls.length (List.replicate calls.length none)
      ((calls.enum).map (fun p => RespItem.obj (some ((p.1 : Int))) (some (f p.2))))).getD
        i none = _
    rw [getD_fillResults calls.length _ i hi _ (List.length_replicate _ _)]
    rw [List.enum_eq_enumFrom, lastHit_enumFrom f calls 0 i calls.length (by omega),
      if_pos (Nat.zero_le i)]
    rw [Nat.sub_zero]
    rw [List.getElem?_eq_getElem hi]
    rfl
  apply List.ext_getElem?
  intro i
  rcases Nat.lt_or_ge i calls.length with hi | hi
  · rw [List.getElem?_eq_getElem (by rw [hlen]; exact hi),
      List.getElem?_map, List.getElem?_eq_getElem hi]
    have h1 := hslot i hi
    rw [List.getElem?_eq_getElem hi] at h1
    rw [List.getD_eq_getElem?_getD, List.getElem?_eq_getElem (by rw [hlen]; exact hi)] at h1
    simp only [Option.getD_some] at h1
    rw [h1]
    rfl
  · rw [List.getElem?_eq_none (by rw [hlen]; exact hi),
      List.getElem?_eq_none (by rw [List.length_map]; exact hi)]

theorem map_isEmpty_eq {α β : Type} (f : α → β) (l : List α) :
    (l.map f).isEmpty = l.isEmpty := by
  cases l <;> rfl

theorem mergeResults_perfect (hf : Nat → String) (hhf : ∀ n, (hf n).isEmpty = false) :
    ∀ (u : List Nat) (cache : Cache) (n : Nat),
      mergeResults cache (u.map (fun bn => (bn, some (hf bn)))) n =
        if n ∈ u then some (hf n) else cache n := by
  intro u
  induction u with
  | nil => intro cache n; simp [mergeResults]
  | cons x u ih =>
    intro cache n
    rw [List.map_cons, mergeResults_cons_some, if_neg (by simp [hhf x]), ih]
    by_cases hnu : n ∈ u
    · rw [if_pos hnu, if_pos (List.mem_cons_of_mem x hnu)]
    · rw [if_neg hnu]
      by_cases hnx : n = x
      · subst hnx
        rw [if_pos (List.mem_cons_self n u)]
        simp [cacheInsert]
      · rw [if_neg (by simp [hnx, hnu])]
        simp [cacheInsert, hnx]

theorem zip_map_self (hf : Nat → String) :
    ∀ (u : List Nat), u.zip (u.map (fun bn => some (hf bn))) =
      u.map (fun bn => (bn, some (hf bn))) := by
  intro u
  induction u with
  | nil => rfl
  | cons x u ih => simp [ih]

theorem get_block_hashes_batch_perfect (hf : Nat → String)
    (hhf : ∀ n, (hf n).isEmpty = false)
    (cache : Cache) (hc : ∀ n s, cache n = some s → s = hf n) (bns : List Nat) :
    (∀ n ∈ bns, (get_block_hashes_batch (perfectHashNet hf) cache bns).2.1 n = some (hf n))
    ∧ (∀ n s, (get_block_hashes_batch (perfectHashNet hf) cache bns).2.1 n = some s →
        s = hf n)
    ∧ (get_block_hashes_batch (perfectHashNet hf) cache bns).1 =
        (dedupFirst bns).map (fun n => (n, some (hf n))) := by
  have hcache2 : ∀ n, (batchCacheUpdate (perfectHashNet hf) cache bns).1 n =
      if n ∈ bns.filter (fun bn => (cache bn).isNone) then some (hf n) else cache n := by
    intro n
    unfold batchCacheUpdate
    by_cases hemp : (bns.filter (fun bn => (cache bn).isNone)).isEmpty
    · rw [if_pos hemp]
      rw [if_neg (by rw [List.isEmpty_iff.mp hemp]; simp)]
    · rw [if_neg hemp]
      have hres : (batch_call (perfectHashNet hf)
          ((bns.filter (fun bn => (cache bn).isNone)).map hashCall)).1 =
          (bns.filter (fun bn => (cache bn).isNone)).map (fun bn => some (hf bn)) := by
        unfold batch_call
        rw [if_neg (by rw [map_isEmpty_eq]; simp [hemp])]
        show batchCallResults _ (perfectHashNet hf _) = _
        show batchCallResults _
          (perfectNet (fun p => hf (p.2.headD 0))
            ((bns.filter (fun bn => (cache bn).isNone)).map hashCall)) = _
        rw [batchCallResults_perfect, List.map_map]
        apply List.map_congr_left
        intro a _
        rfl
      show mergeResults cache _ n = _
      rw [hres, zip_map_self, mergeResults_perfect hf hhf]
  have hmem : ∀ n ∈ bns, (batchCacheUpdate (perfectHashNet hf) cache bns).1 n =
      some (hf n) := by
    intro n hn
    rw [hcache2 n]
    by_cases hu : n ∈ bns.filter (fun bn => (cache bn).isNone)
    · rw [if_pos hu]
    · rw [if_neg hu]
      cases hcn : cache n with
      | none =>
        exact absurd (List.mem_filter.mpr ⟨hn, by rw [hcn]; rfl⟩) hu
      | some s => rw [hc n s hcn]
  refine ⟨hmem, ?_, ?_⟩
  · intro n s hs
    have hs2 : (batchCacheUpdate (perfectHashNet hf) cache bns).1 n = some s := hs
    rw [hcache2 n] at hs2
    by_cases hu : n ∈ bns.filter (fun bn => (cache bn).isNone)
    · rw [if_pos hu] at hs2
      exact (Option.some_inj.mp hs2).symm
    · rw [if_neg hu] at hs2
      exact hc n s hs2
  · show (dedupFirst bns).map
      (fun n => (n, (batchCacheUpdate (perfectHashNet hf) cache bns).1 n)) = _
    apply List.map_congr_left
    intro a ha
    rw [hmem a ((mem_dedupFirst bns a).mp ha)]

theorem validBlocks_map_some (hf : Nat → String) (hhf : ∀ n, (hf n).isEmpty = false)
    (l : List Nat) :
    validBlocks (l.map (fun n => (n, some (hf n)))) = l.map (fun n => (n, hf n)) := by
  induction l with
  | nil => rfl
  | cons x l ih =>
    show List.filterMap keepTruthyHash
      ((x, some (hf x)) :: l.map (fun n => (n, some (hf n)))) = _
    rw [List.filterMap_cons]
    have hfx : keepTruthyHash (x, some (hf x)) = some (x, hf x) := by
      show (if (hf x).isEmpty = true then none else some (x, hf x)) = some (x, hf x)
      rw [if_neg (by simp [hhf x])]
    rw [hfx]
    show (x, hf x) :: validBlocks (l.map (fun n => (n, some (hf n)))) = _
    rw [ih]
    rfl

theorem buildRecords_allSome (bf2 : String → BlockData) (ef2 : String → String) :
    ∀ (vs : List (Nat × String)), (∀ p ∈ vs, (ef2 p.2).isEmpty = false) →
      buildRecords vs (vs.map (fun p => some (bf2 p.2))) (vs.map (fun p => some (ef2 p.2))) =
        (vs.map (fun p => mkBlockRecord p.1 (bf2 p.2)),
         vs.map (fun p => { blockNumber := p.1, events := ef2 p.2 })) := by
  intro vs
  induction vs with
  | nil => intro _; rfl
  | cons v vs ih =>
    intro hne
    obtain ⟨bn, hsh⟩ := v
    have ihh := ih (fun p hp => hne p (List.mem_cons_of_mem _ hp))
    show (mkBlockRecord bn (bf2 hsh) ::
        (buildRecords vs (vs.map (fun p => some (bf2 p.2)))
          (vs.map (fun p => some (ef2 p.2)))).1,
      (if (ef2 hsh).isEmpty = true then
        (buildRecords vs (vs.map (fun p => some (bf2 p.2)))
          (vs.map (fun p => some (ef2 p.2)))).2
      else { blockNumber := bn, events := ef2 hsh } ::
        (buildRecords vs (vs.map (fun p => some (bf2 p.2)))
          (vs.map (fun p => some (ef2 p.2)))).2)) = _
    rw [ihh, if_neg (by simp [hne (bn, hsh) (List.mem_cons_self _ _)])]
    rfl

theorem fetch_impl_perfect (hf : Nat → String) (bf : String → BlockData)
    (ef : String → String) (hhf : ∀ n, (hf n).isEmpty = false)
    (hef : ∀ h, (ef h).isEmpty = false)
    (cache : Cache) (hc : ∀ n s, cache n = some s → s = hf n) (bns : List Nat) :
    (fetch_impl (perfectHashNet hf) (perfectBlockNet bf) (perfectEventNet ef)
        cache bns).1 =
      ((dedupFirst bns).map (fun n => mkBlockRecord n (bf (hf n))),
       (dedupFirst bns).map (fun n => { blockNumber := n, events := ef (hf n) }))
    ∧ (∀ n s,
        (fetch_impl (perfectHashNet hf) (perfectBlockNet bf) (perfectEventNet ef)
          cache bns).2.1 n = some s → s = hf n) := by
  obtain ⟨hmem, hinv, hmap⟩ := get_block_hashes_batch_perfect hf hhf cache hc bns
  have hvalid : validBlocks (get_block_hashes_batch (perfectHashNet hf) cache bns).1 =
      (dedupFirst bns).map (fun n => (n, hf n)) := by
    rw [hmap, validBlocks_map_some hf hhf]
  by_cases hv : (validBlocks (get_block_hashes_batch (perfectHashNet hf) cache bns).1).isEmpty
  · have hdn : dedupFirst bns = [] := by
      have hd : (dedupFirst bns).map (fun n => (n, hf n)) = [] := by
        rw [← hvalid]
        exact List.isEmpty_iff.mp hv
      exact List.map_eq_nil_iff.mp hd
    rw [fetch_impl_empty _ _ _ _ _ hv]
    constructor
    · rw [hdn]
      rfl
    · intro n s hs
      exact hinv n s hs
  · rw [fetch_impl_nonempty _ _ _ _ _ (by simpa using hv)]
    constructor
    · show buildRecords _ _ _ = _
      have hb : (batch_call (perfectBlockNet bf)
          ((validBlocks (get_block_hashes_batch (perfectHashNet hf) cache bns).1).map
            (fun p => blockCall p.2))).1 =
          (validBlocks (get_block_hashes_batch (perfectHashNet hf) cache bns).1).map
            (fun p => some (bf p.2)) := by
        unfold batch_call
        rw [if_neg (by rw [map_isEmpty_eq]; simp [hv])]
        show batchCallResults _
          (perfectNet (fun p => bf (p.2.headD ""))
            ((validBlocks (get_block_hashes_batch (perfectHashNet hf) cache bns).1).map
              (fun p => blockCall p.2))) = _
        rw [batchCallResults_perfect, List.map_map]
        apply List.map_congr_left
        intro a _
        rfl
      have he : (batch_call (perfectEventNet ef)
          ((validBlocks (get_block_hashes_batch (perfectHashNet hf) cache bns).1).map
            (fun p => storageCall p.2))).1 =
          (validBlocks (get_block_hashes_batch (perfectHashNet hf) cache bns).1).map
            (fun p => some (ef p.2)) := by
        unfold batch_call
        rw [if_neg (by rw [map_isEmpty_eq]; simp [hv])]
        show batchCallResults _
          (perfectNet (fun p => ef (p.2.getD 1 ""))
            ((validBlocks (get_block_hashes_batch (perfectHashNet hf) cache bns).1).map
              (fun p => storageCall p.2))) = _
        rw [batchCallResults_perfect, List.map_map]
        apply List.map_congr_left
        intro a _
        rfl
      rw [hb, he, hvalid]
      rw [buildRecords_allSome bf ef _ (by
        intro p hp
        obtain ⟨n, _, heq⟩ := List.mem_map.mp hp
        rw [← heq]
        exact hef (hf n))]
      rw [List.map_map, List.map_map]
      constructor <;> (apply List.map_congr_left; intro a _; rfl)
    · intro n s hs
      exact hinv n s hs

theorem fetch_batch_perfect (hf : Nat → String) (bf : String → BlockData)
    (ef : String → String) (hhf : ∀ n, (hf n).isEmpty = false)
    (hef : ∀ h, (ef h).isEmpty = false)
    (cache : Cache) (hc : ∀ n s, cache n = some s → s = hf n)
    (bns : List Nat) (hnd : bns.Nodup) :
    (fetch_block_and_events_batch (perfectHashNet hf) (perfectBlockNet bf)
        (perfectEventNet ef) cache bns).1.1 =
      (bns.map (fun n => mkBlockRecord n (bf (hf n))),
       bns.map (fun n => { blockNumber := n, events := ef (hf n) })) := by
  obtain ⟨himpl, _⟩ := fetch_impl_perfect hf bf ef hhf hef cache hc bns
  rw [dedupFirst_eq_self bns hnd] at himpl
  unfold fetch_block_and_events_batch
  rw [fetchRetryGo_ok_complete _ bns.length 0 cache
    (bns.map (fun n => mkBlockRecord n (bf (hf n))))
    (bns.map (fun n => { blockNumber := n, events := ef (hf n) }))
    ((fetch_impl (perfectHashNet hf) (perfectBlockNet bf) (perfectEventNet ef)
      cache bns).2.1)
    (by decide)
    (by
      show Except.ok ((fetch_impl (perfectHashNet hf) (perfectBlockNet bf)
        (perfectEventNet ef) cache bns).1,
        (fetch_impl (perfectHashNet hf) (perfectBlockNet bf)
          (perfectEventNet ef) cache bns).2.1) = _
      rw [himpl])
    (by rw [List.length_map])]

/-- C7: partition invariance.  When no network call fails — every
`chain_getBlockHash` answers the truthy hash `hf n`, every
`chain_getBlock` answers `bf h`, every `state_getStorage` answers the
truthy payload `ef h`, and every cache entry agrees with `hf` — running
the retrying fetcher on two disjoint batches `B1` and `B2` produces
exactly the block records and event records of running it once on the
whole set `B1 ++ B2`. -/
theorem fetch_partition_invariance (hf : Nat → String) (bf : String → BlockData)
    (ef : String → String) (hhf : ∀ n, (hf n).isEmpty = false)
    (hef : ∀ h, (ef h).isEmpty = false) (c c1 c2 : Cache)
    (hc : ∀ n s, c n = some s → s = hf n) (hc1 : ∀ n s, c1 n = some s → s = hf n)
    (hc2 : ∀ n s, c2 n = some s → s = hf n)
    (B1 B2 : List Nat) (hnd : (B1 ++ B2).Nodup) :
    (fetch_block_and_events_batch (perfectHashNet hf) (perfectBlockNet bf)
        (perfectEventNet ef) c1 B1).1.1.1 ++
      (fetch_block_and_events_batch (perfectHashNet hf) (perfectBlockNet bf)
        (perfectEventNet ef) c2 B2).1.1.1 =
      (fetch_block_and_events_batch (perfectHashNet hf) (perfectBlockNet bf)
        (perfectEventNet ef) c (B1 ++ B2)).1.1.1
    ∧ (fetch_block_and_events_batch (perfectHashNet hf) (perfectBlockNet bf)
        (perfectEventNet ef) c1 B1).1.1.2 ++
      (fetch_block_and_events_batch (perfectHashNet hf) (perfectBlockNet bf)
        (perfectEventNet ef) c2 B2).1.1.2 =
      (fetch_block_and_events_batch (perfectHashNet hf) (perfectBlockNet bf)
        (perfectEventNet ef) c (B1 ++ B2)).1.1.2 := by
  have hnd1 : B1.Nodup := (List.nodup_append.mp hnd).1
  have hnd2 : B2.Nodup := (List.nodup_append.mp hnd).2.1
  have h1 := fetch_batch_perfect hf bf ef hhf hef c1 hc1 B1 hnd1
  have h2 := fetch_batch_perfect hf bf ef hhf hef c2 hc2 B2 hnd2
  have h12 := fetch_batch_perfect hf bf ef hhf hef c hc (B1 ++ B2) hnd
  constructor
  · calc (fetch_block_and_events_batch (perfectHashNet hf) (perfectBlockNet bf)
          (perfectEventNet ef) c1 B1).1.1.1 ++
        (fetch_block_and_events_batch (perfectHashNet hf) (perfectBlockNet bf)
          (perfectEventNet ef) c2 B2).1.1.1
        = B1.map (fun n => mkBlockRecord n (bf (hf n))) ++
          B2.map (fun n => mkBlockRecord n (bf (hf n))) := by rw [h1, h2]
      _ = (B1 ++ B2).map (fun n => mkBlockRecord n (bf (hf n))) :=
        (List.map_append _ B1 B2).symm
      _ = (fetch_block_and_events_batch (perfectHashNet hf) (perfectBlockNet bf)
          (perfectEventNet ef) c (B1 ++ B2)).1.1.1 := by rw [h12]
  · calc (fetch_block_and_events_batch (perfectHashNet hf) (perfectBlockNet bf)
          (perfectEventNet ef) c1 B1).1.1.2 ++
        (fetch_block_and_events_batch (perfectHashNet hf) (perfectBlockNet bf)
          (perfectEventNet ef) c2 B2).1.1.2
        = B1.map (fun n => ({ blockNumber := n, events := ef (hf n) } : EventRecord)) ++
          B2.map (fun n => ({ blockNumber := n, events := ef (hf n) } : EventRecord)) := by
          rw [h1, h2]
      _ = (B1 ++ B2).map
          (fun n => ({ blockNumber := n, events := ef (hf n) } : EventRecord)) :=
        (List.map_append _ B1 B2).symm
      _ = (fetch_block_and_events_batch (perfectHashNet hf) (perfectBlockNet bf)
          (perfectEventNet ef) c (B1 ++ B2)).1.1.2 := by rw [h12]

/-- Witness for C7 at concrete inputs: batches `[1]` and `[2]` against a
fully successful network, starting from empty caches, produce together
the same block records as the single batch `[1, 2]`. -/
theorem fetch_partition_invariance_witness :
    (fetch_block_and_events_batch (perfectHashNet (fun _ => "AA"))
        (perfectBlockNet (fun _ =>
          { extrinsics := [], header :=
            { digest := none, extrinsicsRoot := none, number := none,
              parentHash := none, stateRoot := none } }))
        (perfectEventNet (fun _ => "EE")) (fun _ => none) [1]).1.1.1 ++
      (fetch_block_and_events_batch (perfectHashNet (fun _ => "AA"))
        (perfectBlockNet (fun _ =>
          { extrinsics := [], header :=
            { digest := none, extrinsicsRoot := none, number := none,
              parentHash := none, stateRoot := none } }))
        (perfectEventNet (fun _ => "EE")) (fun _ => none) [2]).1.1.1 =
      (fetch_block_and_events_batch (perfectHashNet (fun _ => "AA"))
        (perfectBlockNet (fun _ =>
          { extrinsics := [], header :=
            { digest := none, extrinsicsRoot := none, number := none,
              parentHash := none, stateRoot := none } }))
        (perfectEventNet (fun _ => "EE")) (fun _ => none) ([1] ++ [2])).1.1.1 :=
  (fetch_partition_invariance (fun _ => "AA")
    (fun _ =>
      { extrinsics := [], header :=
        { digest := none, extrinsicsRoot := none, number := none,
          parentHash := none, stateRoot := none } })
    (fun _ => "EE") (fun _ => rfl) (fun _ => rfl)
    (fun _ => none) (fun _ => none) (fun _ => none)
    (fun _ s h => Option.noConfusion h) (fun _ s h => Option.noConfusion h)
    (fun _ s h => Option.noConfusion h)
    [1] [2] (by decide)).1

end FetchManifest
